import Mathlib

/-!
# containers::vector — a shallow embedding of `src/vector.h`

The container keeps three fields (`_data`, `_size`, `_capacity`) and talks to
an allocator.  The embedding makes the memory of the allocator explicit:

* a `Heap` is a table of blocks; block `b` is either released (`none`) or a
  list of slots, each slot being raw (`none`) or holding a live element;
* a `pointer` is `none` (the null pointer) or the number of a block, so that
  `_data + i` is slot `i` of block `_data`;
* every operation returns a `Res`: it completes (`ok`), an exception leaves it
  (`threw`), or it runs into undefined behaviour (`ub`: a read of a raw or
  out-of-range slot, a use of a released block, a double release).

`size_type` is `std::size_t`; the only arithmetic the code performs on it is
the loop increment below a bound already held in a field, so `Nat` is exact.

An iterator is an element pointer: a block and a signed offset into it.  The
allocator calls are recorded in the heap, so that the calls of one lifetime
(construction, capacity operations, destruction) can be checked for pairing.
A call of `allocate` may fail; whether it does is decided by the allocator,
which is a parameter of every operation that allocates, and its exception
leaves the operation like any other.
-/

namespace containers

/-! ## Memory -/

/-- The buffer pointer of the container: `none` is `nullptr`, `some b` is the
start of block `b`. -/
abbrev pointer := Option Nat

/-- One call made to the allocator: an `allocate(n)` that returned block `p`,
a `deallocate(p, n)`, or an `allocate(n)` that threw. -/
inductive AllocEvent where
  | allocate (p : Nat) (n : Nat)
  | deallocate (p : pointer) (n : Nat)
  | allocate_failed (n : Nat)
deriving DecidableEq

/-- Memory handed out by the allocator, with the record of the calls made. -/
structure Heap (T : Type) where
  blocks : List (Option (List (Option T)))
  log : List AllocEvent
deriving DecidableEq

/-- What can leave an operation instead of a result. -/
inductive Exn where
  | out_of_range
  | construct_failure
  | bad_alloc
deriving DecidableEq

/-- The outcome of an operation over a state `σ` with a result `α`. -/
inductive Res (σ : Type) (α : Type) where
  | ok (val : α) (st : σ)
  | threw (e : Exn) (st : σ)
  | ub
deriving DecidableEq

/-- The state an operation leaves behind, when it leaves one. -/
def Res.state? {σ α : Type} : Res σ α → Option σ
  | .ok _ s => some s
  | .threw _ s => some s
  | .ub => none

/-- What the template arguments offer, as far as the container asks: of the
element type `std::is_nothrow_move_constructible_v` and whether
copy-constructing from a given value throws; of the allocator whether it
fails to supply `n` slots after the calls made so far. -/
structure ElemTraits (T : Type) where
  is_nothrow_move_constructible : Bool
  copy_throws : T → Bool
  alloc_fails : List AllocEvent → Nat → Bool

namespace Heap

variable {T : Type}

/-- The heap before any allocation. -/
def empty : Heap T := ⟨[], []⟩

/-- The slots of a block that is still allocated. -/
def block? (h : Heap T) (b : Nat) : Option (List (Option T)) :=
  match h.blocks[b]? with
  | some (some blk) => some blk
  | _ => none

/-- The memory and the pointer after the allocator has supplied `n` slots: a
fresh block of `n` raw slots. -/
def grant (h : Heap T) (n : Nat) : Heap T × pointer :=
  (⟨h.blocks ++ [some (List.replicate n none)],
    h.log ++ [AllocEvent.allocate h.blocks.length n]⟩, some h.blocks.length)

/-- The memory after the allocator has failed to supply `n` slots: only the
call is recorded. -/
def refuse (h : Heap T) (n : Nat) : Heap T :=
  ⟨h.blocks, h.log ++ [AllocEvent.allocate_failed n]⟩

/-- The call `_allocate.allocate(n)`: the allocator supplies a fresh block of
`n` raw slots, or it cannot and throws. -/
def allocate (E : ElemTraits T) (h : Heap T) (n : Nat) : Res (Heap T) pointer :=
  if E.alloc_fails h.log n then .threw .bad_alloc (h.refuse n)
  else .ok (h.grant n).2 (h.grant n).1

/-- The call `_allocate.deallocate(p, n)`: the block is released; releasing the null
pointer does nothing to memory.  The call is recorded with the count given. -/
def deallocate (h : Heap T) (p : pointer) (n : Nat) : Option (Heap T) :=
  match p with
  | none => some ⟨h.blocks, h.log ++ [AllocEvent.deallocate none n]⟩
  | some b =>
    match h.block? b with
    | some _ => some ⟨h.blocks.set b none, h.log ++ [AllocEvent.deallocate (some b) n]⟩
    | none => none

/-- Reading `p[i]`: the live element in slot `i`, if there is one. -/
def read (h : Heap T) (p : pointer) (i : Nat) : Option T :=
  match p with
  | none => none
  | some b =>
    match h.block? b with
    | some blk =>
      match blk[i]? with
      | some (some x) => some x
      | _ => none
    | none => none

/-- The call `construct(p + i, x)`: placement-new of `x` into slot `i`. -/
def construct (h : Heap T) (p : pointer) (i : Nat) (x : T) : Option (Heap T) :=
  match p with
  | none => none
  | some b =>
    match h.block? b with
    | some blk =>
      if i < blk.length then some ⟨h.blocks.set b (some (blk.set i (some x))), h.log⟩
      else none
    | none => none

/-- The call `destroy(p + i)`: the destructor of the element in slot `i`, which must be
live; the slot is raw afterwards. -/
def destroy (h : Heap T) (p : pointer) (i : Nat) : Option (Heap T) :=
  match p with
  | none => none
  | some b =>
    match h.block? b with
    | some blk =>
      match blk[i]? with
      | some (some _) => some ⟨h.blocks.set b (some (blk.set i none)), h.log⟩
      | _ => none
    | none => none

end Heap

/-! ## The container -/

/-- The data members of `containers::vector` (the allocator member is the
`Heap` the operations are run in). -/
structure vector where
  _data : pointer
  _size : Nat
  _capacity : Nat
deriving DecidableEq

/-- A reference to an element: a slot of a block. -/
structure Ref where
  base : pointer
  idx : Nat
deriving DecidableEq

/-- Reading through a reference. -/
def Ref.deref {T : Type} (h : Heap T) (r : Ref) : Option T := h.read r.base r.idx

namespace vector

variable {T : Type}

/-- The default constructor `vector()`. -/
def ctor_default : vector := ⟨none, 0, 0⟩

/-- The member `size()`. -/
def size (v : vector) : Nat := v._size

/-- The member `capacity()`. -/
def capacity (v : vector) : Nat := v._capacity

/-- The loop `for (; i < _size; ++i) construct(dst + i, value)` of the sized
constructor, with `k` iterations left.  It stops at the first construction
that throws; the state carries the index `i` reached. -/
def fill_loop (E : ElemTraits T) (dst : pointer) (value : T) :
    Nat → Nat → Heap T → Res (Nat × Heap T) Unit
  | 0, i, h => .ok () (i, h)
  | k + 1, i, h =>
    if E.copy_throws value then .threw .construct_failure (i, h)
    else
      match h.construct dst i value with
      | some h1 => fill_loop E dst value k (i + 1) h1
      | none => .ub

/-- The loop `for (...; ++i, ++iter) construct(_data + i, *iter)` over an
initializer list; the list argument is what `iter` has still to visit. -/
def list_loop (E : ElemTraits T) (dst : pointer) :
    List T → Nat → Heap T → Res (Nat × Heap T) Unit
  | [], i, h => .ok () (i, h)
  | x :: rest, i, h =>
    if E.copy_throws x then .threw .construct_failure (i, h)
    else
      match h.construct dst i x with
      | some h1 => list_loop E dst rest (i + 1) h1
      | none => .ub

/-- The loop `for (; i < bound; ++i) construct(dst + i, src[i])` (copy
constructor and `reserve_copy`), with `k` iterations left. -/
def copy_loop (E : ElemTraits T) (src dst : pointer) :
    Nat → Nat → Heap T → Res (Nat × Heap T) Unit
  | 0, i, h => .ok () (i, h)
  | k + 1, i, h =>
    match h.read src i with
    | none => .ub
    | some x =>
      if E.copy_throws x then .threw .construct_failure (i, h)
      else
        match h.construct dst i x with
        | some h1 => copy_loop E src dst k (i + 1) h1
        | none => .ub

/-- The loop of `reserve_move`:
`construct(temp + i, std::move(_data[i])); destroy(_data + i);`,
with `k` iterations left. -/
def move_loop (src dst : pointer) : Nat → Nat → Heap T → Option (Heap T)
  | 0, _, h => some h
  | k + 1, i, h =>
    match h.read src i with
    | none => none
    | some x =>
      match h.construct dst i x with
      | none => none
      | some h1 =>
        match h1.destroy src i with
        | none => none
        | some h2 => move_loop src dst k (i + 1) h2

/-- The loop `for (j = 0; j < bound; ++j) destroy(p + j)`, with `k` iterations
left. -/
def destroy_loop (p : pointer) : Nat → Nat → Heap T → Option (Heap T)
  | 0, _, h => some h
  | k + 1, j, h =>
    match h.destroy p j with
    | some h1 => destroy_loop p k (j + 1) h1
    | none => none

/-- The handler `catch (...)` shared by the sized constructor and
`reserve_copy`: destroy the `i` elements built in `p`, release `p`. -/
def rollback (p : pointer) (i n : Nat) (h : Heap T) : Option (Heap T) :=
  match destroy_loop p i 0 h with
  | some h1 => h1.deallocate p n
  | none => none

/-- The sized constructor `vector(size, value)`. -/
def ctor_sized (E : ElemTraits T) (h : Heap T) (size : Nat) (value : T) :
    Res (Heap T) vector :=
  match h.allocate E size with
  | .threw e h0 => .threw e h0
  | .ub => .ub
  | .ok p h0 =>
    match fill_loop E p value size 0 h0 with
    | .ok _ (_, h1) => .ok ⟨p, size, size⟩ h1
    | .threw e (i, h1) =>
      match rollback p i size h1 with
      | some h2 => .threw e h2
      | none => .ub
    | .ub => .ub

/-- The constructor `vector(const std::initializer_list<value_type>&)`. -/
def ctor_list (E : ElemTraits T) (h : Heap T) (list : List T) :
    Res (Heap T) vector :=
  match h.allocate E list.length with
  | .threw e h0 => .threw e h0
  | .ub => .ub
  | .ok p h0 =>
    match list_loop E p list 0 h0 with
    | .ok _ (_, h1) => .ok ⟨p, list.length, list.length⟩ h1
    | .threw e (_, h1) => .threw e h1
    | .ub => .ub

/-- The copy constructor `vector(const vector &rhs)`: the loop runs up to `_capacity`. -/
def ctor_copy (E : ElemTraits T) (h : Heap T) (rhs : vector) :
    Res (Heap T) vector :=
  match h.allocate E rhs._capacity with
  | .threw e h0 => .threw e h0
  | .ub => .ub
  | .ok p h0 =>
    match copy_loop E rhs._data p rhs._capacity 0 h0 with
    | .ok _ (_, h1) => .ok ⟨p, rhs._size, rhs._capacity⟩ h1
    | .threw e (_, h1) => .threw e h1
    | .ub => .ub

/-- The effect the statements of the move constructor would have on a source
that may be written: the new object and what is left of `rhs`.  As declared,
`vector(const vector &&rhs)` binds `rhs` to a const object and its body
assigns to `rhs._data`, `rhs._size` and `rhs._capacity`, so the constructor
cannot be instantiated and no program performs this step; it is kept as an
operation of `step` only to make the set of reachable states larger. -/
def ctor_move (rhs : vector) : vector × vector :=
  (⟨rhs._data, rhs._size, rhs._capacity⟩, ⟨none, 0, 0⟩)

/-- The member `operator[](pos)`. -/
def op_index (v : vector) (pos : Nat) : Ref := ⟨v._data, pos⟩

/-- The member `at(pos)`. -/
def at_ (h : Heap T) (v : vector) (pos : Nat) : Res (Heap T × vector) Ref :=
  if pos ≥ v._size then .threw .out_of_range (h, v)
  else .ok ⟨v._data, pos⟩ (h, v)

/-- The member `front()`. -/
def front (v : vector) : Ref := ⟨v._data, 0⟩

/-- The member `back()`. -/
def back (v : vector) : Ref := ⟨v._data, v._size⟩

/-- The member `data()`. -/
def data (v : vector) : pointer := if v._size = 0 then none else v._data

/-- The member `empty()`.  The source compares `begin(_data)` with `end(_data)`: two
functions applied to the buffer pointer that the repository does not declare,
taken here as the parameters `begin_fn` and `end_fn`. -/
def empty {I : Type} [DecidableEq I] (begin_fn end_fn : pointer → I) (v : vector) : Bool :=
  if begin_fn v._data = end_fn v._data then true else false

/-- The member `reserve_copy(new_cap)`. -/
def reserve_copy (E : ElemTraits T) (h : Heap T) (v : vector) (new_cap : Nat) :
    Res (Heap T × vector) Unit :=
  match h.allocate E new_cap with
  | .threw e h0 => .threw e (h0, v)
  | .ub => .ub
  | .ok temp h0 =>
    match copy_loop E v._data temp v._size 0 h0 with
    | .threw e (i, h1) =>
      match rollback temp i new_cap h1 with
      | some h2 => .threw e (h2, v)
      | none => .ub
    | .ok _ (_, h1) =>
      match destroy_loop v._data v._size 0 h1 with
      | none => .ub
      | some h2 =>
        match h2.deallocate v._data v._capacity with
        | none => .ub
        | some h3 => .ok () (h3, { v with _data := temp })
    | .ub => .ub

/-- The member `reserve_move(new_cap)`. -/
def reserve_move (E : ElemTraits T) (h : Heap T) (v : vector) (new_cap : Nat) :
    Res (Heap T × vector) Unit :=
  match h.allocate E new_cap with
  | .threw e h0 => .threw e (h0, v)
  | .ub => .ub
  | .ok temp h0 =>
    match move_loop v._data temp v._size 0 h0 with
    | none => .ub
    | some h1 =>
      match h1.deallocate v._data v._capacity with
      | none => .ub
      | some h2 => .ok () (h2, { v with _data := temp })

/-- The migration `reserve` and `shrink_to_fit` select with
`if constexpr (std::is_nothrow_move_constructible_v<value_type>)`. -/
def migrate (E : ElemTraits T) (h : Heap T) (v : vector) (new_cap : Nat) :
    Res (Heap T × vector) Unit :=
  if E.is_nothrow_move_constructible then reserve_move E h v new_cap
  else reserve_copy E h v new_cap

/-- The member `reserve(new_cap)`. -/
def reserve (E : ElemTraits T) (h : Heap T) (v : vector) (new_cap : Nat) :
    Res (Heap T × vector) Unit :=
  if new_cap ≤ v._capacity then .ok () (h, v)
  else
    match migrate E h v new_cap with
    | .ok _ (h1, v1) => .ok () (h1, { v1 with _capacity := new_cap })
    | .threw e s => .threw e s
    | .ub => .ub

/-- The member `shrink_to_fit()`. -/
def shrink_to_fit (E : ElemTraits T) (h : Heap T) (v : vector) :
    Res (Heap T × vector) Unit :=
  migrate E h v v._size

/-- The member `clear()`. -/
def clear (h : Heap T) (v : vector) : Res (Heap T × vector) Unit :=
  match destroy_loop v._data v._size 0 h with
  | some h1 => .ok () (h1, { v with _size := 0 })
  | none => .ub

end vector

/-! ## Several containers in one memory -/

/-- The memory together with the container objects living in it; an object is
addressed by its position in `objs`. -/
structure World (T : Type) where
  heap : Heap T
  objs : List vector
deriving DecidableEq

namespace World

variable {T : Type}

/-- No memory handed out, no object. -/
def init : World T := ⟨Heap.empty, []⟩

/-- The move-assignment `operator=(vector &&rhs)` run on the object at `this`. -/
def op_assign_move (w : World T) (this rhs : Nat) : Res (World T) Unit :=
  if this = rhs then .ok () w
  else
    match w.objs[this]?, w.objs[rhs]? with
    | some a, some r =>
      .ok () ⟨w.heap,
        (w.objs.set this { a with _data := r._data }).set rhs
          { r with _data := a._data, _size := 0, _capacity := 0 }⟩
    | _, _ => .ub

/-- The outcome of a constructor brought to the world: a new object on success,
only its effect on memory when it throws. -/
def construct_obj (w : World T) (r : Res (Heap T) vector) : Res (World T) Unit :=
  match r with
  | .ok v h => .ok () ⟨h, w.objs ++ [v]⟩
  | .threw e h => .threw e ⟨h, w.objs⟩
  | .ub => .ub

/-- The outcome of a member function brought to the world. -/
def update_obj (w : World T) (this : Nat) (r : Res (Heap T × vector) Unit) :
    Res (World T) Unit :=
  match r with
  | .ok _ (h, v) => .ok () ⟨h, w.objs.set this v⟩
  | .threw e (h, v) => .threw e ⟨h, w.objs.set this v⟩
  | .ub => .ub

end World

/-- The operations a world is run through: those of a client program, and two
that no client can perform as the class stands, `ctor_move` (the constructor
cannot be instantiated) and `clear` (a private member).  They only add to the
worlds that can be reached. -/
inductive Op (T : Type) where
  | ctor_default
  | ctor_sized (size : Nat) (value : T)
  | ctor_list (list : List T)
  | ctor_copy (rhs : Nat)
  | ctor_move (rhs : Nat)
  | reserve (this : Nat) (new_cap : Nat)
  | shrink_to_fit (this : Nat)
  | clear (this : Nat)
  | assign_move (this rhs : Nat)
deriving DecidableEq

/-- One operation run in a world. -/
def step {T : Type} (E : ElemTraits T) (w : World T) : Op T → Res (World T) Unit
  | .ctor_default => .ok () ⟨w.heap, w.objs ++ [vector.ctor_default]⟩
  | .ctor_sized size value => w.construct_obj (vector.ctor_sized E w.heap size value)
  | .ctor_list list => w.construct_obj (vector.ctor_list E w.heap list)
  | .ctor_copy rhs =>
    match w.objs[rhs]? with
    | some r => w.construct_obj (vector.ctor_copy E w.heap r)
    | none => .ub
  | .ctor_move rhs =>
    match w.objs[rhs]? with
    | some r => .ok () ⟨w.heap, w.objs.set rhs (vector.ctor_move r).2 ++ [(vector.ctor_move r).1]⟩
    | none => .ub
  | .reserve this new_cap =>
    match w.objs[this]? with
    | some v => w.update_obj this (vector.reserve E w.heap v new_cap)
    | none => .ub
  | .shrink_to_fit this =>
    match w.objs[this]? with
    | some v => w.update_obj this (vector.shrink_to_fit E w.heap v)
    | none => .ub
  | .clear this =>
    match w.objs[this]? with
    | some v => w.update_obj this (vector.clear w.heap v)
    | none => .ub
  | .assign_move this rhs => w.op_assign_move this rhs

/-- A program run from a world: an exception is caught by the client and the
run goes on; undefined behaviour ends it without a state. -/
def run {T : Type} (E : ElemTraits T) : World T → List (Op T) → Option (World T)
  | w, [] => some w
  | w, op :: rest =>
    match (step E w op).state? with
    | some w1 => run E w1 rest
    | none => none

/-! ## Well-formed containers -/

/-- The slots of a buffer of `n` slots whose first slots hold `xs` and whose
other slots are raw. -/
def layout {T : Type} (n : Nat) (xs : List T) : List (Option T) :=
  xs.map some ++ List.replicate (n - xs.length) none

/-- The container `v` is well formed in `h` and holds the elements `xs`:
`xs` has `_size` elements, `_size ≤ _capacity`, and the buffer is either null
with no capacity or an allocated block of `_capacity` slots of which exactly
the first `_size` are live. -/
def vector.Holds {T : Type} (h : Heap T) (v : vector) (xs : List T) : Prop :=
  xs.length = v._size ∧ v._size ≤ v._capacity ∧
    match v._data with
    | none => v._capacity = 0
    | some b => h.block? b = some (layout v._capacity xs)

instance {T : Type} [DecidableEq T] (h : Heap T) (v : vector) (xs : List T) :
    Decidable (vector.Holds h v xs) := by
  unfold vector.Holds
  cases v._data <;> exact inferInstance

/-! ## Concrete element types and states used as test points -/

/-- Elements like `int`: moved without failure, copies never throw; the
allocator supplies every request. -/
def intTraits : ElemTraits Nat := ⟨true, fun _ => false, fun _ _ => false⟩

/-- Elements migrated by copying, whose copy constructor throws on `7`; the
allocator supplies every request. -/
def throwingTraits : ElemTraits Nat := ⟨false, fun x => x == 7, fun _ _ => false⟩

/-- Elements like `int`, with an allocator that cannot supply more than `2^61`
slots in one block. -/
def limitedTraits : ElemTraits Nat := ⟨true, fun _ => false, fun _ n => decide (2 ^ 61 < n)⟩

/-- Memory after `vector a = {1, 2, 3}`. -/
def heap123 : Heap Nat := ⟨[some [some 1, some 2, some 3]], [AllocEvent.allocate 0 3]⟩

/-- The container `{1, 2, 3}` in `heap123`. -/
def vec123 : vector := ⟨some 0, 3, 3⟩

/-! ## Auxiliary definitions for the proofs -/

/-- The list of `n` slots whose slot `j` is `f j`. -/
def slots {T : Type} (n : Nat) (f : Nat → Option T) : List (Option T) :=
  (List.range n).map f

/-- The heap with block `t` overwritten by the slots `blk`. -/
def Heap.put {T : Type} (h : Heap T) (t : Nat) (blk : List (Option T)) : Heap T :=
  ⟨h.blocks.set t (some blk), h.log⟩

/-- Slot `j` of a destination buffer into which the first `i` elements of `xs`
have been built. -/
def built {T : Type} (xs : List T) (i : Nat) : Nat → Option T :=
  fun j => if j < i then xs[j]? else none

/-- Slot `j` of a buffer given by `g` whose first `i` slots have been
destroyed. -/
def destroyed {T : Type} (g : Nat → Option T) (i : Nat) : Nat → Option T :=
  fun j => if j < i then none else g j

/-- The heap a completed migration of `v` (holding `xs`) into a fresh buffer of
`n` slots leaves: the new block holds `xs`, the old block is released, and the
allocator has seen one `allocate(n)` and one `deallocate(_data, _capacity)`. -/
def vector.migrated {T : Type} (h : Heap T) (v : vector) (n : Nat) (xs : List T) : Heap T :=
  ⟨match v._data with
    | none => h.blocks ++ [some (layout n xs)]
    | some b => (h.blocks ++ [some (layout n xs)]).set b none,
   h.log ++ [AllocEvent.allocate h.blocks.length n, AllocEvent.deallocate v._data v._capacity]⟩

/-- The size/capacity invariant of a world. -/
def World.SizeLeCapacity {T : Type} (w : World T) : Prop :=
  ∀ v ∈ w.objs, v._size ≤ v._capacity

/-- Memory after `a = {1, 2, 3}; a.reserve(10);`. -/
def heap123r : Heap Nat :=
  ⟨[none, some [some 1, some 2, some 3, none, none, none, none, none, none, none]],
    [AllocEvent.allocate 0 3, AllocEvent.allocate 1 10, AllocEvent.deallocate (some 0) 3]⟩

/-- The container `a` after `a = {1, 2, 3}; a.reserve(10);`, in `heap123r`. -/
def vec123r : vector := ⟨some 1, 3, 10⟩

/-- Memory holding `{1, 7, 3}`. -/
def heap173 : Heap Nat := ⟨[some [some 1, some 7, some 3]], [AllocEvent.allocate 0 3]⟩

/-- A client program exercising every constructor and `reserve`,
`shrink_to_fit`, `clear` and move-assignment; the second sized construction
throws (run with `throwingTraits`). -/
def sampleOps : List (Op Nat) :=
  [.ctor_list [1, 2, 3], .ctor_default, .reserve 0 10, .shrink_to_fit 0, .ctor_sized 2 5,
    .ctor_sized 2 7, .ctor_copy 2, .ctor_move 3, .assign_move 1 0, .clear 2, .reserve 1 4]

/-- The world `sampleOps` ends in. -/
def sampleWorld : World Nat :=
  ⟨⟨[none, none, none, some [none, none], none, some [some 5, some 5],
      some [none, none, none, none]],
    [AllocEvent.allocate 0 3, AllocEvent.allocate 1 10, AllocEvent.deallocate (some 0) 3,
      AllocEvent.allocate 2 3, AllocEvent.deallocate (some 1) 10, AllocEvent.allocate 3 2,
      AllocEvent.allocate 4 2, AllocEvent.deallocate (some 4) 2, AllocEvent.allocate 5 2,
      AllocEvent.allocate 6 4, AllocEvent.deallocate (some 2) 0]⟩,
   [⟨none, 0, 0⟩, ⟨some 6, 0, 4⟩, ⟨some 3, 0, 2⟩, ⟨none, 0, 0⟩, ⟨some 5, 2, 2⟩]⟩

/-! ## Iterators -/

/-- An element pointer `T*`: slot `off` of the block `base` points to; `off` is
signed, as pointer arithmetic takes a `difference_type`. -/
structure ElemPtr where
  base : pointer
  off : Int
deriving DecidableEq

/-- Pointer arithmetic `p + n`. -/
def ElemPtr.add (p : ElemPtr) (n : Int) : ElemPtr := ⟨p.base, p.off + n⟩

/-- Dereferencing `*p`: the live element the pointer designates, if any. -/
def ElemPtr.deref {T : Type} (h : Heap T) (p : ElemPtr) : Option T :=
  if 0 ≤ p.off then h.read p.base p.off.toNat else none

/-- The class `VectorIterator<T, isConst>`: its one member `_iterator`.  The flag
`isConst` only selects the reference and pointer types. -/
structure VectorIterator where
  _iterator : ElemPtr
deriving DecidableEq

namespace VectorIterator

/-- The member `operator*()`. -/
def op_deref {T : Type} (h : Heap T) (it : VectorIterator) : Option T := it._iterator.deref h

/-- The member `operator+(n)`: `VectorIterator(_iterator + n)`. -/
def op_add (it : VectorIterator) (n : Int) : VectorIterator := ⟨it._iterator.add n⟩

/-- The member `operator-(n)`: `VectorIterator(_iterator - n)`. -/
def op_sub (it : VectorIterator) (n : Int) : VectorIterator := ⟨it._iterator.add (-n)⟩

/-- The member `operator+=(n)`: `_iterator += n; return *this;` (the iterator
after the call). -/
def op_add_assign (it : VectorIterator) (n : Int) : VectorIterator := ⟨it._iterator.add n⟩

/-- The member `operator-=(n)`: `_iterator += n; return *this;` (the iterator
after the call). -/
def op_sub_assign (it : VectorIterator) (n : Int) : VectorIterator := ⟨it._iterator.add n⟩

/-- The member `operator++()`: `_iterator += 1`. -/
def op_inc (it : VectorIterator) : VectorIterator := ⟨it._iterator.add 1⟩

/-- The member `operator--()`: `_iterator -= 1`. -/
def op_dec (it : VectorIterator) : VectorIterator := ⟨it._iterator.add (-1)⟩

/-- The member `operator!=(other)`. -/
def op_ne (it other : VectorIterator) : Bool := it._iterator != other._iterator

end VectorIterator

/-- The adaptor `std::reverse_iterator<Iter>` of the standard library, as the
C++ standard defines it: it keeps a base iterator `current`. -/
structure reverse_iterator where
  current : VectorIterator
deriving DecidableEq

namespace reverse_iterator

/-- The standard `operator*()`: `Iter tmp = current; return *--tmp;`. -/
def op_deref {T : Type} (h : Heap T) (r : reverse_iterator) : Option T :=
  r.current.op_dec.op_deref h

/-- The standard `operator++()`: `--current`. -/
def op_inc (r : reverse_iterator) : reverse_iterator := ⟨r.current.op_dec⟩

/-- The standard `operator!=`: the bases differ. -/
def op_ne (r s : reverse_iterator) : Bool := r.current.op_ne s.current

end reverse_iterator

/-- How a traversal of a range ends: at `last` after visiting `visited`, in
undefined behaviour at a dereference, or still short of `last` when the
step budget is used up. -/
inductive Walk (T : Type) where
  | finished (visited : List T)
  | ub (visited : List T)
  | unfinished (visited : List T)
deriving DecidableEq

/-- The algorithm `std::for_each(first, last, f)`:
`for (; first != last; ++first) f(*first);`, recording the elements handed to
`f`, with a budget of `k` steps. -/
def for_each {T I : Type} (deref : I → Option T) (inc : I → I) (ne : I → I → Bool) :
    Nat → I → I → List T → Walk T
  | 0, first, last, acc => if ne first last then .unfinished acc else .finished acc
  | k + 1, first, last, acc =>
    if ne first last then
      match deref first with
      | some x => for_each deref inc ne k (inc first) last (acc ++ [x])
      | none => .ub acc
    else .finished acc

namespace vector

variable {T : Type}

/-- The members `begin()` and `cbegin()`: `iterator(_data)`. -/
def begin (v : vector) : VectorIterator := ⟨⟨v._data, 0⟩⟩

/-- The members `end()` and `cend()`: `iterator(_data + _size)`. -/
def end_ (v : vector) : VectorIterator := ⟨⟨v._data, v._size⟩⟩

/-- The members `rbegin()` and `crbegin()`: `reverse_iterator(iterator(_data))`. -/
def rbegin (v : vector) : reverse_iterator := ⟨⟨⟨v._data, 0⟩⟩⟩

/-- The members `rend()` and `crend()`:
`reverse_iterator(iterator(_data) + _size)`. -/
def rend (v : vector) : reverse_iterator :=
  ⟨(VectorIterator.mk ⟨v._data, 0⟩).op_add v._size⟩

/-- The traversal `std::for_each(v.begin(), v.end(), f)`. -/
def for_each_forward (h : Heap T) (v : vector) (k : Nat) : Walk T :=
  for_each (VectorIterator.op_deref h) VectorIterator.op_inc VectorIterator.op_ne
    k v.begin v.end_ []

/-- The traversal `std::for_each(v.rbegin(), v.rend(), f)`. -/
def for_each_reverse (h : Heap T) (v : vector) (k : Nat) : Walk T :=
  for_each (reverse_iterator.op_deref h) reverse_iterator.op_inc reverse_iterator.op_ne
    k v.rbegin v.rend []

/-- The call `vector(size)`: the sized constructor with its default argument
`value = value_type()`, given as `dflt`. -/
def ctor_sized_default (E : ElemTraits T) (dflt : T) (h : Heap T) (size : Nat) :
    Res (Heap T) vector :=
  ctor_sized E h size dflt

/-- The destructor `~vector()`; `is_trivial` is `std::is_trivial_v<value_type>`.
For a trivial element type the loop is discarded by `if constexpr` and the
destructor is the one call `_allocate.deallocate(_data, _capacity)`; the
fields of the object are not written.  For any other element type the loop
calls `destroy(_data[i])`, handing a `T&` to the parameter `U* p` of
`destroy`: the destructor cannot be instantiated, there is no behaviour to
embed, and the model gives no result. -/
def dtor (is_trivial : Bool) (h : Heap T) (v : vector) : Option (Heap T) :=
  if is_trivial then h.deallocate v._data v._capacity else none

end vector

/-- The copy-assignment `operator=(const vector &rhs)` run on the object at
`this`.  Its body is `if (this != &rhs) { ~vector(); vector(rhs); }`: the first
statement is embedded as the destructor run on `*this`; the second is, by the
C++ grammar, the declaration of a block-local `vector rhs` (default
constructed, destroyed at the closing brace).  No statement writes `_data`,
`_size` or `_capacity` of `*this`. -/
def World.op_assign_copy {T : Type} (is_trivial : Bool) (w : World T) (this rhs : Nat) :
    Res (World T) Unit :=
  if this ≠ rhs then
    match w.objs[this]?, w.objs[rhs]? with
    | some a, some _ =>
      match a.dtor is_trivial w.heap with
      | none => .ub
      | some h1 =>
        match vector.ctor_default.dtor is_trivial h1 with
        | none => .ub
        | some h2 => .ok () ⟨h2, w.objs⟩
    | _, _ => .ub
  else .ok () w

/-! ## The allocator calls of one container -/

/-- The counter of the test allocator (`counter += n` in `allocate`, before the
request is passed on and so also when it fails; `counter -= n` in
`deallocate`; on a `size_t`) after the calls of a log. -/
def TestAllocator.counter (log : List AllocEvent) : Nat :=
  log.foldl
    (fun c e =>
      match e with
      | .allocate _ n => (c + n) % 2 ^ 64
      | .deallocate _ n => (c + 2 ^ 64 - n % 2 ^ 64) % 2 ^ 64
      | .allocate_failed n => (c + n) % 2 ^ 64)
    0

/-- One call checked against the allocations still outstanding: a
`deallocate(p, n)` must find the `allocate(n)` that returned `p`.  A
`deallocate(nullptr, 0)` is accepted only when `allow_null` is set. -/
def pair_step (allow_null : Bool) :
    Option (List (Nat × Nat)) → AllocEvent → Option (List (Nat × Nat))
  | none, _ => none
  | some out, .allocate p n => some (out ++ [(p, n)])
  | some out, .deallocate (some p) n =>
    if (p, n) ∈ out then some (out.erase (p, n)) else none
  | some out, .deallocate none n =>
    if allow_null = true ∧ n = 0 then some out else none
  | some out, .allocate_failed _ => some out

/-- The allocations a log leaves outstanding, or `none` when one of its
`deallocate` calls is not paired with an earlier `allocate` of the same buffer
and count. -/
def paired (allow_null : Bool) (log : List AllocEvent) : Option (List (Nat × Nat)) :=
  log.foldl (pair_step allow_null) (some [])

/-- The constructors whose allocator calls are all made by the new container. -/
inductive Ctor (T : Type) where
  | default
  | sized (size : Nat) (value : T)
  | list (list : List T)
  | copy (rhs : vector)
deriving DecidableEq

/-- The capacity operations of a lifetime. -/
inductive Mut where
  | reserve (new_cap : Nat)
  | shrink_to_fit
  | clear
deriving DecidableEq

/-- The construction that opens a lifetime. -/
def Ctor.run {T : Type} (E : ElemTraits T) (h : Heap T) : Ctor T → Res (Heap T) vector
  | .default => .ok vector.ctor_default h
  | .sized n value => vector.ctor_sized E h n value
  | .list l => vector.ctor_list E h l
  | .copy rhs => vector.ctor_copy E h rhs

/-- One capacity operation on the container. -/
def Mut.run {T : Type} (E : ElemTraits T) (h : Heap T) (v : vector) :
    Mut → Res (Heap T × vector) Unit
  | .reserve new_cap => v.reserve E h new_cap
  | .shrink_to_fit => v.shrink_to_fit E h
  | .clear => v.clear h

/-- The capacity operations of a lifetime in order; an exception is caught by
the client and the lifetime goes on. -/
def Mut.run_all {T : Type} (E : ElemTraits T) :
    List Mut → Heap T → vector → Option (Heap T × vector)
  | [], h, v => some (h, v)
  | m :: rest, h, v =>
    match (m.run E h v).state? with
    | some s => Mut.run_all E rest s.1 s.2
    | none => none

/-- A whole lifetime: construction, capacity operations, destruction; the
memory it leaves.  There is no lifetime when the construction throws, and
none for an element type that is not trivial, whose destructor cannot be
instantiated. -/
def lifetime {T : Type} (E : ElemTraits T) (is_trivial : Bool) (h : Heap T) (c : Ctor T)
    (ms : List Mut) : Option (Heap T) :=
  match c.run E h with
  | .ok v h1 =>
    match Mut.run_all E ms h1 v with
    | some s => s.2.dtor is_trivial s.1
    | none => none
  | _ => none

/-- The construction completes: the allocator supplies the buffer the
constructor asks for, the constructor arguments hold no value whose copy
throws, and a source to copy from is well formed in `h` with its buffer full
(`_capacity == _size`). -/
def Ctor.admissible {T : Type} (E : ElemTraits T) (h : Heap T) : Ctor T → Prop
  | .default => True
  | .sized size value => E.alloc_fails h.log size = false ∧ E.copy_throws value = false
  | .list l => E.alloc_fails h.log l.length = false ∧ ∀ x ∈ l, E.copy_throws x = false
  | .copy rhs => E.alloc_fails h.log rhs._capacity = false ∧
      ∃ xs : List T, rhs.Holds h xs ∧ rhs._capacity = rhs._size ∧
        ∀ x ∈ xs, E.copy_throws x = false

/-- The allocation a container owns: its buffer with its capacity. -/
def vector.owned (v : vector) : List (Nat × Nat) :=
  match v._data with
  | none => []
  | some b => [(b, v._capacity)]

/-- The buffer invariant of a world that the code keeps: a container with
capacity has a buffer. -/
def World.CapacityHasBuffer {T : Type} (w : World T) : Prop :=
  ∀ v ∈ w.objs, 0 < v._capacity → v._data ≠ none

/-- The operation is not a move-assignment. -/
def Op.not_assign_move {T : Type} : Op T → Prop
  | .assign_move _ _ => False
  | _ => True

/-- The heap `clear()` leaves: the buffer keeps its slots, all raw. -/
def vector.cleared {T : Type} (h : Heap T) (v : vector) : Heap T :=
  match v._data with
  | none => h
  | some b => h.put b (layout v._capacity ([] : List T))

/-- The container a member function leaves is the one before the call, the one
before the call with `_size` zeroed, or one with a fresh buffer, the same
`_size` and a capacity that is the old one or the one requested beyond it. -/
def vector.Evolved {T : Type} (h : Heap T) (v v1 : vector) : Prop :=
  v1 = v ∨ v1 = { v with _size := 0 } ∨
    (v1._data = some h.blocks.length ∧ v1._size = v._size ∧ v._capacity ≤ v1._capacity)

instance {T : Type} (op : Op T) : Decidable op.not_assign_move := by
  cases op <;> unfold Op.not_assign_move <;> exact inferInstance

/-- No call of the log is an allocation that failed. -/
def no_failed (log : List AllocEvent) : Prop :=
  ∀ n : Nat, AllocEvent.allocate_failed n ∉ log

/-- The state of a lifetime begun in the memory `h0`: the container is well
formed and, when no allocation has failed since `h0`, the allocator calls made
since `h0` are all paired except the allocation the container owns, and the
counter of those calls is its capacity. -/
def vector.Accounted {T : Type} (h0 h : Heap T) (v : vector) : Prop :=
  ∃ (xs : List T) (ev : List AllocEvent), v.Holds h xs ∧ h.log = h0.log ++ ev ∧
    (no_failed ev →
      paired true ev = some v.owned ∧ TestAllocator.counter ev = v._capacity % 2 ^ 64)

/-- A program with every constructor and `reserve`, `shrink_to_fit`, `clear`,
without move-assignment (run with `throwingTraits`). -/
def sampleOpsNoAssign : List (Op Nat) :=
  [.ctor_list [1, 2, 3], .ctor_default, .reserve 0 10, .shrink_to_fit 0, .ctor_sized 2 5,
    .ctor_sized 0 1, .ctor_copy 2, .ctor_move 3, .clear 2, .reserve 1 4]

/-- The world `sampleOpsNoAssign` ends in. -/
def sampleWorldNoAssign : World Nat :=
  ⟨⟨[none, none, some [some 1, some 2, some 3], some [none, none], some [],
      some [some 5, some 5], some [none, none, none, none]],
    [AllocEvent.allocate 0 3, AllocEvent.allocate 1 10, AllocEvent.deallocate (some 0) 3,
      AllocEvent.allocate 2 3, AllocEvent.deallocate (some 1) 10, AllocEvent.allocate 3 2,
      AllocEvent.allocate 4 0, AllocEvent.allocate 5 2, AllocEvent.allocate 6 4,
      AllocEvent.deallocate none 0]⟩,
   [⟨some 2, 3, 10⟩, ⟨some 6, 0, 4⟩, ⟨some 3, 0, 2⟩, ⟨none, 0, 0⟩, ⟨some 5, 2, 2⟩,
     ⟨some 4, 0, 0⟩]⟩

/-! ## The two outcomes of an allocation -/

theorem Heap.allocate_ok {T : Type} (E : ElemTraits T) (h : Heap T) (n : Nat)
    (hA : E.alloc_fails h.log n = false) :
    h.allocate E n = .ok (h.grant n).2 (h.grant n).1 := by
  simp [Heap.allocate, hA]

theorem Heap.allocate_fail {T : Type} (E : ElemTraits T) (h : Heap T) (n : Nat)
    (hA : E.alloc_fails h.log n = true) :
    h.allocate E n = .threw .bad_alloc (h.refuse n) := by
  simp [Heap.allocate, hA]

theorem reserve_move_refused {T : Type} (E : ElemTraits T) (h : Heap T) (v : vector) (n : Nat)
    (hA : E.alloc_fails h.log n = true) :
    vector.reserve_move E h v n = .threw .bad_alloc (h.refuse n, v) := by
  unfold vector.reserve_move
  rw [Heap.allocate_fail E h n hA]

theorem reserve_copy_refused {T : Type} (E : ElemTraits T) (h : Heap T) (v : vector) (n : Nat)
    (hA : E.alloc_fails h.log n = true) :
    vector.reserve_copy E h v n = .threw .bad_alloc (h.refuse n, v) := by
  unfold vector.reserve_copy
  rw [Heap.allocate_fail E h n hA]

theorem migrate_refused {T : Type} (E : ElemTraits T) (h : Heap T) (v : vector) (n : Nat)
    (hA : E.alloc_fails h.log n = true) :
    vector.migrate E h v n = .threw .bad_alloc (h.refuse n, v) := by
  unfold vector.migrate
  split
  · exact reserve_move_refused E h v n hA
  · exact reserve_copy_refused E h v n hA

theorem ctor_sized_refused {T : Type} (E : ElemTraits T) (h : Heap T) (n : Nat) (x : T)
    (hA : E.alloc_fails h.log n = true) :
    vector.ctor_sized E h n x = .threw .bad_alloc (h.refuse n) := by
  unfold vector.ctor_sized
  rw [Heap.allocate_fail E h n hA]

theorem ctor_list_refused {T : Type} (E : ElemTraits T) (h : Heap T) (l : List T)
    (hA : E.alloc_fails h.log l.length = true) :
    vector.ctor_list E h l = .threw .bad_alloc (h.refuse l.length) := by
  unfold vector.ctor_list
  rw [Heap.allocate_fail E h l.length hA]

theorem ctor_copy_refused {T : Type} (E : ElemTraits T) (h : Heap T) (rhs : vector)
    (hA : E.alloc_fails h.log rhs._capacity = true) :
    vector.ctor_copy E h rhs = .threw .bad_alloc (h.refuse rhs._capacity) := by
  unfold vector.ctor_copy
  rw [Heap.allocate_fail E h rhs._capacity hA]

/-! ## Size and capacity through the operations -/

theorem reserve_move_fields {T : Type} (E : ElemTraits T) (h : Heap T) (v : vector) (n : Nat)
    (s : Heap T × vector) (hs : (vector.reserve_move E h v n).state? = some s) :
    s.2._size = v._size ∧ s.2._capacity = v._capacity := by
  cases hA : E.alloc_fails h.log n with
  | true =>
    rw [reserve_move_refused E h v n hA] at hs
    simp [Res.state?] at hs
    subst hs
    simp
  | false =>
  unfold vector.reserve_move at hs
  rw [Heap.allocate_ok E h n hA] at hs
  simp only [] at hs
  cases hm : vector.move_loop v._data (h.grant n).2 v._size 0 (h.grant n).1 with
  | none => simp [hm, Res.state?] at hs
  | some h1 =>
    cases hd : h1.deallocate v._data v._capacity with
    | none => simp [hm, hd, Res.state?] at hs
    | some h2 =>
      simp [hm, hd, Res.state?] at hs
      subst hs
      simp

theorem reserve_copy_fields {T : Type} (E : ElemTraits T) (h : Heap T) (v : vector) (n : Nat)
    (s : Heap T × vector) (hs : (vector.reserve_copy E h v n).state? = some s) :
    s.2._size = v._size ∧ s.2._capacity = v._capacity := by
  cases hA : E.alloc_fails h.log n with
  | true =>
    rw [reserve_copy_refused E h v n hA] at hs
    simp [Res.state?] at hs
    subst hs
    simp
  | false =>
  unfold vector.reserve_copy at hs
  rw [Heap.allocate_ok E h n hA] at hs
  simp only [] at hs
  cases hm : vector.copy_loop E v._data (h.grant n).2 v._size 0 (h.grant n).1 with
  | ub => simp [hm, Res.state?] at hs
  | threw e st =>
    obtain ⟨i, h1⟩ := st
    cases hr : vector.rollback (h.grant n).2 i n h1 with
    | none => simp [hm, hr, Res.state?] at hs
    | some h2 =>
      simp [hm, hr, Res.state?] at hs
      subst hs
      simp
  | ok u st =>
    obtain ⟨i, h1⟩ := st
    cases hd : vector.destroy_loop v._data v._size 0 h1 with
    | none => simp [hm, hd, Res.state?] at hs
    | some h2 =>
      cases hx : h2.deallocate v._data v._capacity with
      | none => simp [hm, hd, hx, Res.state?] at hs
      | some h3 =>
        simp [hm, hd, hx, Res.state?] at hs
        subst hs
        simp

theorem migrate_fields {T : Type} (E : ElemTraits T) (h : Heap T) (v : vector) (n : Nat)
    (s : Heap T × vector) (hs : (vector.migrate E h v n).state? = some s) :
    s.2._size = v._size ∧ s.2._capacity = v._capacity := by
  unfold vector.migrate at hs
  split at hs
  · exact reserve_move_fields E h v n s hs
  · exact reserve_copy_fields E h v n s hs

theorem reserve_fields {T : Type} (E : ElemTraits T) (h : Heap T) (v : vector) (n : Nat)
    (s : Heap T × vector) (hs : (vector.reserve E h v n).state? = some s)
    (hv : v._size ≤ v._capacity) : s.2._size ≤ s.2._capacity := by
  unfold vector.reserve at hs
  split at hs
  · simp [Res.state?] at hs
    subst hs
    exact hv
  · rename_i hlt
    cases hm : vector.migrate E h v n with
    | ub => simp [hm, Res.state?] at hs
    | threw e st =>
      have := migrate_fields E h v n st (by simp [hm, Res.state?])
      simp [hm, Res.state?] at hs
      subst hs
      omega
    | ok u st =>
      have := migrate_fields E h v n st (by simp [hm, Res.state?])
      obtain ⟨h1, v1⟩ := st
      simp [hm, Res.state?] at hs
      subst hs
      simp at this ⊢
      omega

theorem clear_fields {T : Type} (h : Heap T) (v : vector)
    (s : Heap T × vector) (hs : (vector.clear h v).state? = some s) :
    s.2._size = 0 ∧ s.2._capacity = v._capacity := by
  unfold vector.clear at hs
  cases hd : vector.destroy_loop v._data v._size 0 h with
  | none => simp [hd, Res.state?] at hs
  | some h1 =>
    simp [hd, Res.state?] at hs
    subst hs
    simp

theorem World.sizeLe_set {T : Type} {w : World T} (hw : w.SizeLeCapacity) (hp : Heap T)
    (i : Nat) (v : vector) (hv : v._size ≤ v._capacity) :
    World.SizeLeCapacity ⟨hp, w.objs.set i v⟩ := by
  intro u hu
  rcases List.mem_or_eq_of_mem_set hu with hmem | rfl
  · exact hw u hmem
  · exact hv

theorem World.sizeLe_push {T : Type} {w : World T} (hw : w.SizeLeCapacity) (hp : Heap T)
    (v : vector) (hv : v._size ≤ v._capacity) :
    World.SizeLeCapacity ⟨hp, w.objs ++ [v]⟩ := by
  intro u hu
  rcases List.mem_append.mp hu with hmem | hmem
  · exact hw u hmem
  · rw [List.mem_singleton] at hmem
    subst hmem
    exact hv

theorem World.sizeLe_update {T : Type} {w : World T} (hw : w.SizeLeCapacity) (this : Nat)
    (r : Res (Heap T × vector) Unit)
    (hr : ∀ s, r.state? = some s → s.2._size ≤ s.2._capacity)
    (w1 : World T) (h1 : (w.update_obj this r).state? = some w1) : w1.SizeLeCapacity := by
  unfold World.update_obj at h1
  cases r with
  | ub => simp [Res.state?] at h1
  | ok u st =>
    obtain ⟨hp, v⟩ := st
    simp [Res.state?] at h1
    subst h1
    exact World.sizeLe_set hw hp this v (hr (hp, v) rfl)
  | threw e st =>
    obtain ⟨hp, v⟩ := st
    simp [Res.state?] at h1
    subst h1
    exact World.sizeLe_set hw hp this v (hr (hp, v) rfl)

theorem World.sizeLe_construct {T : Type} {w : World T} (hw : w.SizeLeCapacity)
    (r : Res (Heap T) vector)
    (hr : ∀ v hp, r = .ok v hp → v._size ≤ v._capacity)
    (w1 : World T) (h1 : (w.construct_obj r).state? = some w1) : w1.SizeLeCapacity := by
  unfold World.construct_obj at h1
  cases r with
  | ub => simp [Res.state?] at h1
  | ok v hp =>
    simp [Res.state?] at h1
    subst h1
    exact World.sizeLe_push hw hp v (hr v hp rfl)
  | threw e hp =>
    simp [Res.state?] at h1
    subst h1
    exact hw

theorem ctor_sized_fields {T : Type} (E : ElemTraits T) (h : Heap T) (n : Nat) (x : T)
    (v : vector) (hp : Heap T) (hr : vector.ctor_sized E h n x = .ok v hp) :
    v._size = n ∧ v._capacity = n := by
  cases hA : E.alloc_fails h.log n with
  | true =>
    rw [ctor_sized_refused E h n x hA] at hr
    simp at hr
  | false =>
  unfold vector.ctor_sized at hr
  rw [Heap.allocate_ok E h n hA] at hr
  simp only [] at hr
  cases hm : vector.fill_loop E (h.grant n).2 x n 0 (h.grant n).1 with
  | ub => simp [hm] at hr
  | threw e st =>
    obtain ⟨i, h1⟩ := st
    cases hb : vector.rollback (h.grant n).2 i n h1 <;> simp [hm, hb] at hr
  | ok u st =>
    obtain ⟨i, h1⟩ := st
    simp [hm] at hr
    rw [← hr.1]
    simp

theorem ctor_list_fields {T : Type} (E : ElemTraits T) (h : Heap T) (l : List T)
    (v : vector) (hp : Heap T) (hr : vector.ctor_list E h l = .ok v hp) :
    v._size = l.length ∧ v._capacity = l.length := by
  cases hA : E.alloc_fails h.log l.length with
  | true =>
    rw [ctor_list_refused E h l hA] at hr
    simp at hr
  | false =>
  unfold vector.ctor_list at hr
  rw [Heap.allocate_ok E h l.length hA] at hr
  simp only [] at hr
  cases hm : vector.list_loop E (h.grant l.length).2 l 0 (h.grant l.length).1 with
  | ub => simp [hm] at hr
  | threw e st =>
    obtain ⟨i, h1⟩ := st
    simp [hm] at hr
  | ok u st =>
    obtain ⟨i, h1⟩ := st
    simp [hm] at hr
    rw [← hr.1]
    simp

theorem ctor_copy_fields {T : Type} (E : ElemTraits T) (h : Heap T) (rhs : vector)
    (v : vector) (hp : Heap T) (hr : vector.ctor_copy E h rhs = .ok v hp) :
    v._size = rhs._size ∧ v._capacity = rhs._capacity := by
  cases hA : E.alloc_fails h.log rhs._capacity with
  | true =>
    rw [ctor_copy_refused E h rhs hA] at hr
    simp at hr
  | false =>
  unfold vector.ctor_copy at hr
  rw [Heap.allocate_ok E h rhs._capacity hA] at hr
  simp only [] at hr
  cases hm : vector.copy_loop E rhs._data (h.grant rhs._capacity).2 rhs._capacity 0
      (h.grant rhs._capacity).1 with
  | ub => simp [hm] at hr
  | threw e st =>
    obtain ⟨i, h1⟩ := st
    simp [hm] at hr
  | ok u st =>
    obtain ⟨i, h1⟩ := st
    simp [hm] at hr
    rw [← hr.1]
    simp

theorem step_sizeLe {T : Type} (E : ElemTraits T) (w : World T) (op : Op T)
    (hw : w.SizeLeCapacity) (w1 : World T) (h1 : (step E w op).state? = some w1) :
    w1.SizeLeCapacity := by
  cases op with
  | ctor_default =>
    simp [step, Res.state?] at h1
    subst h1
    exact World.sizeLe_push hw _ _ (by simp [vector.ctor_default])
  | ctor_sized n x =>
    refine World.sizeLe_construct hw _ ?_ w1 h1
    intro v hp hr
    have := ctor_sized_fields E _ n x v hp hr
    omega
  | ctor_list l =>
    refine World.sizeLe_construct hw _ ?_ w1 h1
    intro v hp hr
    have := ctor_list_fields E _ l v hp hr
    omega
  | ctor_copy rhs =>
    simp only [step] at h1
    cases hg : w.objs[rhs]? with
    | none => simp [hg, Res.state?] at h1
    | some r =>
      simp only [hg] at h1
      refine World.sizeLe_construct hw _ ?_ w1 h1
      intro v hp hr
      have := ctor_copy_fields E _ r v hp hr
      have := hw r (List.getElem?_mem hg)
      omega
  | ctor_move rhs =>
    simp only [step] at h1
    cases hg : w.objs[rhs]? with
    | none => simp [hg, Res.state?] at h1
    | some r =>
      simp only [hg, Res.state?, Option.some.injEq] at h1
      subst h1
      have hr := hw r (List.getElem?_mem hg)
      intro u hu
      rcases List.mem_append.mp hu with hmem | hmem
      · rcases List.mem_or_eq_of_mem_set hmem with hm | rfl
        · exact hw u hm
        · simp [vector.ctor_move]
      · rw [List.mem_singleton] at hmem
        subst hmem
        simpa [vector.ctor_move] using hr
  | reserve this n =>
    simp only [step] at h1
    cases hg : w.objs[this]? with
    | none => simp [hg, Res.state?] at h1
    | some v =>
      simp only [hg] at h1
      exact World.sizeLe_update hw this _
        (fun s hs => reserve_fields E _ v n s hs (hw v (List.getElem?_mem hg))) w1 h1
  | shrink_to_fit this =>
    simp only [step] at h1
    cases hg : w.objs[this]? with
    | none => simp [hg, Res.state?] at h1
    | some v =>
      simp only [hg] at h1
      refine World.sizeLe_update hw this _ ?_ w1 h1
      intro s hs
      have := migrate_fields E _ v v._size s hs
      have := hw v (List.getElem?_mem hg)
      omega
  | clear this =>
    simp only [step] at h1
    cases hg : w.objs[this]? with
    | none => simp [hg, Res.state?] at h1
    | some v =>
      simp only [hg] at h1
      refine World.sizeLe_update hw this _ ?_ w1 h1
      intro s hs
      have := clear_fields _ v s hs
      omega
  | assign_move this rhs =>
    simp only [step, World.op_assign_move] at h1
    split at h1
    · simp [Res.state?] at h1
      subst h1
      exact hw
    · cases ha : w.objs[this]? with
      | none => simp [ha, Res.state?] at h1
      | some a =>
        cases hb : w.objs[rhs]? with
        | none => simp [ha, hb, Res.state?] at h1
        | some r =>
          simp only [ha, hb, Res.state?, Option.some.injEq] at h1
          subst h1
          intro u hu
          rcases List.mem_or_eq_of_mem_set hu with hm | rfl
          · rcases List.mem_or_eq_of_mem_set hm with hm2 | rfl
            · exact hw u hm2
            · exact hw a (List.getElem?_mem ha)
          · simp

theorem run_sizeLe {T : Type} (E : ElemTraits T) (ops : List (Op T)) :
    ∀ (w0 w : World T), w0.SizeLeCapacity → run E w0 ops = some w → w.SizeLeCapacity := by
  induction ops with
  | nil =>
    intro w0 w h0 hr
    simp [run] at hr
    subst hr
    exact h0
  | cons op rest ih =>
    intro w0 w h0 hr
    simp only [run] at hr
    cases hs : (step E w0 op).state? with
    | none => simp [hs] at hr
    | some w1 =>
      simp only [hs] at hr
      exact ih w1 w (step_sizeLe E w0 op h0 w1 hs) hr
/-! ## Memory lemmas -/

section lemmas
variable {T : Type}

theorem slots_length (n : Nat) (f : Nat → Option T) : (slots n f).length = n := by
  simp [slots]

theorem slots_getElem? (n : Nat) (f : Nat → Option T) (j : Nat) :
    (slots n f)[j]? = if j < n then some (f j) else none := by
  unfold slots
  by_cases hj : j < n
  · simp [hj, List.getElem?_range hj]
  · simp [hj]
    omega

theorem slots_congr {n : Nat} {f g : Nat → Option T} (hfg : ∀ j, j < n → f j = g j) :
    slots n f = slots n g := by
  apply List.ext_getElem?
  intro j
  rw [slots_getElem?, slots_getElem?]
  by_cases hj : j < n
  · simp [hj, hfg j hj]
  · simp [hj]

theorem slots_set {n i : Nat} (f : Nat → Option T) (a : Option T) (hi : i < n) :
    (slots n f).set i a = slots n (fun j => if j = i then a else f j) := by
  apply List.ext_getElem?
  intro j
  rw [List.getElem?_set, slots_getElem?, slots_getElem?, slots_length]
  by_cases hij : i = j
  · subst hij
    simp [hi]
  · have hji : ¬ j = i := fun e => hij e.symm
    simp [hij, hji]

theorem layout_eq_slots {n : Nat} {xs : List T} (hl : xs.length ≤ n) :
    layout n xs = slots n (fun j => xs[j]?) := by
  apply List.ext_getElem?
  intro j
  rw [slots_getElem?]
  unfold layout
  by_cases h1 : j < xs.length
  · rw [List.getElem?_append_left (by simpa using h1)]
    have : j < n := by omega
    simp [this, List.getElem?_eq_getElem h1]
  · rw [List.getElem?_append_right (by simpa using h1)]
    rw [List.getElem?_replicate]
    have hnone : xs[j]? = none := List.getElem?_eq_none (by omega)
    rw [List.length_map, hnone]
    by_cases h2 : j < n
    · have : j - xs.length < n - xs.length := by omega
      rw [if_pos this, if_pos h2]
    · have : ¬ j - xs.length < n - xs.length := by omega
      rw [if_neg this, if_neg h2]

theorem Heap.lt_of_block? {h : Heap T} {t : Nat} {blk : List (Option T)}
    (hb : h.block? t = some blk) : t < h.blocks.length := by
  unfold Heap.block? at hb
  by_contra hlt
  rw [List.getElem?_eq_none (by omega)] at hb
  simp at hb

theorem Heap.blocks_of_block? {h : Heap T} {t : Nat} {blk : List (Option T)}
    (hb : h.block? t = some blk) : h.blocks[t]? = some (some blk) := by
  unfold Heap.block? at hb
  split at hb
  · rename_i blk1 heq
    simp at hb
    subst hb
    exact heq
  · simp at hb

theorem Heap.block?_of_blocks {h : Heap T} {t : Nat} {blk : List (Option T)}
    (hb : h.blocks[t]? = some (some blk)) : h.block? t = some blk := by
  simp [Heap.block?, hb]

theorem Heap.block?_put_same {h : Heap T} {t : Nat} (blk : List (Option T))
    (ht : t < h.blocks.length) : (h.put t blk).block? t = some blk := by
  apply Heap.block?_of_blocks
  simp [Heap.put, ht]

theorem Heap.block?_put_other {h : Heap T} {t c : Nat} (blk : List (Option T))
    (hne : t ≠ c) : (h.put t blk).block? c = h.block? c := by
  simp [Heap.block?, Heap.put, List.getElem?_set_ne hne]

theorem Heap.put_put (h : Heap T) (t : Nat) (a b : List (Option T)) :
    (h.put t a).put t b = h.put t b := by
  simp [Heap.put]

theorem Heap.put_comm (h : Heap T) {t b : Nat} (A B : List (Option T)) (hne : t ≠ b) :
    (h.put t A).put b B = (h.put b B).put t A := by
  simp [Heap.put, List.set_comm _ _ _ hne]

theorem Heap.put_self {h : Heap T} {t : Nat} {blk : List (Option T)}
    (hb : h.block? t = some blk) : h.put t blk = h := by
  have h1 := Heap.blocks_of_block? hb
  have h2 : h.blocks.set t (some blk) = h.blocks := by
    apply List.ext_getElem?
    intro j
    rw [List.getElem?_set]
    by_cases hj : t = j
    · subst hj
      simp [Heap.lt_of_block? hb, h1]
    · simp [hj]
  cases h
  simp only [Heap.put] at h2 ⊢
  rw [h2]

theorem Heap.put_blocks_length (h : Heap T) (t : Nat) (blk : List (Option T)) :
    (h.put t blk).blocks.length = h.blocks.length := by
  simp [Heap.put]

theorem Heap.put_log (h : Heap T) (t : Nat) (blk : List (Option T)) :
    (h.put t blk).log = h.log := rfl

theorem Heap.construct_put {h : Heap T} {t i : Nat} {blk : List (Option T)} (x : T)
    (hb : h.block? t = some blk) (hi : i < blk.length) :
    h.construct (some t) i x = some (h.put t (blk.set i (some x))) := by
  simp [Heap.construct, hb, hi, Heap.put]

theorem Heap.destroy_put {h : Heap T} {t i : Nat} {blk : List (Option T)} {y : T}
    (hb : h.block? t = some blk) (hi : blk[i]? = some (some y)) :
    h.destroy (some t) i = some (h.put t (blk.set i none)) := by
  simp [Heap.destroy, hb, hi, Heap.put]

theorem Heap.read_of_block {h : Heap T} {b i : Nat} {blk : List (Option T)} {x : T}
    (hb : h.block? b = some blk) (hi : blk[i]? = some (some x)) :
    h.read (some b) i = some x := by
  simp [Heap.read, hb, hi]

theorem Heap.deallocate_put {h : Heap T} {t : Nat} (blk : List (Option T)) (n : Nat)
    (ht : t < h.blocks.length) :
    (h.put t blk).deallocate (some t) n
      = some ⟨h.blocks.set t none, h.log ++ [AllocEvent.deallocate (some t) n]⟩ := by
  simp [Heap.deallocate, Heap.block?_put_same blk ht]
  simp [Heap.put]

theorem Heap.grant_block? (h : Heap T) (n : Nat) :
    (h.grant n).1.block? h.blocks.length = some (slots n (fun _ => none)) := by
  apply Heap.block?_of_blocks
  have : List.replicate n (none : Option T) = slots n (fun _ => none) := by
    apply List.ext_getElem?
    intro j
    rw [slots_getElem?, List.getElem?_replicate]
  simp [Heap.grant, this]

theorem Heap.grant_block?_old (h : Heap T) (n : Nat) {b : Nat} {blk : List (Option T)}
    (hb : h.block? b = some blk) : (h.grant n).1.block? b = some blk := by
  apply Heap.block?_of_blocks
  have hlt := Heap.lt_of_block? hb
  simp only [Heap.grant]
  rw [List.getElem?_append_left hlt]
  exact Heap.blocks_of_block? hb

end lemmas

/-! ## The loops in closed form -/

section loops
variable {T : Type}

theorem built_step {xs : List T} {i n : Nat} {x : T} (hx : xs[i]? = some x) (hi : i < n) :
    (slots n (built xs i)).set i (some x) = slots n (built xs (i + 1)) := by
  rw [slots_set _ _ hi]
  apply slots_congr
  intro j _
  unfold built
  by_cases h1 : j = i
  · subst h1
    simp [hx]
  · by_cases h2 : j < i
    · have : j < i + 1 := by omega
      simp [h1, h2, this]
    · have : ¬ j < i + 1 := by omega
      simp [h1, h2, this]

theorem destroyed_step (g : Nat → Option T) {i n : Nat} (hi : i < n) :
    (slots n (destroyed g i)).set i none = slots n (destroyed g (i + 1)) := by
  rw [slots_set _ _ hi]
  apply slots_congr
  intro j _
  unfold destroyed
  by_cases h1 : j = i
  · subst h1
    simp
  · by_cases h2 : j < i
    · have : j < i + 1 := by omega
      simp [h1, h2, this]
    · have : ¬ j < i + 1 := by omega
      simp [h1, h2, this]

theorem destroyed_zero (g : Nat → Option T) : destroyed g 0 = g := by
  funext j
  simp [destroyed]

theorem built_zero (xs : List T) : built xs 0 = fun _ => none := by
  funext j
  simp [built]

theorem built_length {xs : List T} {n : Nat} (hn : xs.length ≤ n) :
    slots n (built xs xs.length) = layout n xs := by
  rw [layout_eq_slots hn]
  apply slots_congr
  intro j _
  unfold built
  by_cases h : j < xs.length
  · simp [h]
  · simp [h]
    omega

/-- The destroy loop run over `k` live slots from slot `i` on. -/
theorem destroy_loop_put (h : Heap T) (b c : Nat) (g : Nat → Option T)
    (hb : b < h.blocks.length) :
    ∀ (k i : Nat), i + k ≤ c → (∀ j, i ≤ j → j < i + k → ∃ y, g j = some y) →
      vector.destroy_loop (some b) k i (h.put b (slots c (destroyed g i)))
        = some (h.put b (slots c (destroyed g (i + k)))) := by
  intro k
  induction k with
  | zero => intro i _ _; simp [vector.destroy_loop]
  | succ k ih =>
    intro i hik hlive
    obtain ⟨y, hy⟩ := hlive i (Nat.le_refl _) (by omega)
    have hblk := Heap.block?_put_same (slots c (destroyed g i)) hb
    have hslot : (slots c (destroyed g i))[i]? = some (some y) := by
      rw [slots_getElem?, if_pos (by omega)]
      simp [destroyed, hy]
    unfold vector.destroy_loop
    rw [Heap.destroy_put hblk hslot, Heap.put_put, destroyed_step g (by omega)]
    simp only
    rw [ih (i + 1) (by omega) (fun j h1 h2 => hlive j (by omega) (by omega)),
      show i + 1 + k = i + (k + 1) by omega]

/-- The copy loop over a live source, when no copy throws. -/
theorem copy_loop_ok (E : ElemTraits T) (xs : List T) (h : Heap T) (b t n : Nat)
    (sblk : List (Option T)) (hbt : t ≠ b) (ht : t < h.blocks.length)
    (hb : h.block? b = some sblk) (hs : ∀ j, j < xs.length → sblk[j]? = some xs[j]?)
    (hn : xs.length ≤ n) (hc : ∀ x ∈ xs, E.copy_throws x = false) :
    ∀ (k i : Nat), i + k ≤ xs.length →
      vector.copy_loop E (some b) (some t) k i (h.put t (slots n (built xs i)))
        = .ok () (i + k, h.put t (slots n (built xs (i + k)))) := by
  intro k
  induction k with
  | zero => intro i _; simp [vector.copy_loop]
  | succ k ih =>
    intro i hik
    have hi : i < xs.length := by omega
    have hx : xs[i]? = some xs[i] := List.getElem?_eq_getElem hi
    have hsrc : (h.put t (slots n (built xs i))).block? b = some sblk := by
      rw [Heap.block?_put_other _ hbt]; exact hb
    have hread := Heap.read_of_block hsrc (by rw [hs i hi, hx])
    have hdst := Heap.block?_put_same (slots n (built xs i)) ht
    unfold vector.copy_loop
    rw [hread]
    simp only [hc _ (List.getElem_mem hi), Bool.false_eq_true, if_false]
    rw [Heap.construct_put _ hdst (by rw [slots_length]; omega), Heap.put_put,
      built_step hx (by omega)]
    simp only
    rw [ih (i + 1) (by omega), show i + 1 + k = i + (k + 1) by omega]

/-- The copy loop over a live source stops at an element whose copy throws,
with exactly the elements before it built. -/
theorem copy_loop_threw (E : ElemTraits T) (xs : List T) (h : Heap T) (b t n : Nat)
    (sblk : List (Option T)) (hbt : t ≠ b) (ht : t < h.blocks.length)
    (hb : h.block? b = some sblk) (hs : ∀ j, j < xs.length → sblk[j]? = some xs[j]?)
    (hn : xs.length ≤ n) :
    ∀ (k i : Nat), i + k = xs.length →
      (∃ (j : Nat) (x : T), i ≤ j ∧ xs[j]? = some x ∧ E.copy_throws x = true) →
      ∃ m, m < xs.length ∧
        vector.copy_loop E (some b) (some t) k i (h.put t (slots n (built xs i)))
          = .threw .construct_failure (m, h.put t (slots n (built xs m))) := by
  intro k
  induction k with
  | zero =>
    intro i hik hex
    obtain ⟨j, x, hij, hj, _⟩ := hex
    rw [List.getElem?_eq_none (by omega)] at hj
    simp at hj
  | succ k ih =>
    intro i hik hex
    have hi : i < xs.length := by omega
    have hx : xs[i]? = some xs[i] := List.getElem?_eq_getElem hi
    have hsrc : (h.put t (slots n (built xs i))).block? b = some sblk := by
      rw [Heap.block?_put_other _ hbt]; exact hb
    have hread := Heap.read_of_block hsrc (by rw [hs i hi, hx])
    have hdst := Heap.block?_put_same (slots n (built xs i)) ht
    unfold vector.copy_loop
    rw [hread]
    by_cases hthrow : E.copy_throws xs[i] = true
    · exact ⟨i, hi, by simp [hthrow]⟩
    · simp only [hthrow, if_false]
      rw [Heap.construct_put _ hdst (by rw [slots_length]; omega), Heap.put_put,
        built_step hx (by omega)]
      simp only
      apply ih (i + 1) (by omega)
      obtain ⟨j, x, hij, hj, hjx⟩ := hex
      refine ⟨j, x, ?_, hj, hjx⟩
      by_contra hlt
      have : j = i := by omega
      subst this
      rw [hx] at hj
      simp at hj
      subst hj
      exact hthrow hjx

/-- The move loop over a live source. -/
theorem move_loop_put (xs : List T) (h : Heap T) (b t n c : Nat)
    (hbt : t ≠ b) (ht : t < h.blocks.length) (hb : b < h.blocks.length)
    (hn : xs.length ≤ n) (hcap : xs.length ≤ c) :
    ∀ (k i : Nat), i + k ≤ xs.length →
      vector.move_loop (some b) (some t) k i
          ((h.put t (slots n (built xs i))).put b (slots c (destroyed (fun j => xs[j]?) i)))
        = some ((h.put t (slots n (built xs (i + k)))).put b
            (slots c (destroyed (fun j => xs[j]?) (i + k)))) := by
  intro k
  induction k with
  | zero => intro i _; simp [vector.move_loop]
  | succ k ih =>
    intro i hik
    have hi : i < xs.length := by omega
    have hx : xs[i]? = some xs[i] := List.getElem?_eq_getElem hi
    have hb1 : b < (h.put t (slots n (built xs i))).blocks.length := by
      rw [Heap.put_blocks_length]; exact hb
    have hsrc := Heap.block?_put_same (slots c (destroyed (fun j => xs[j]?) i)) hb1
    have hslot : (slots c (destroyed (fun j => xs[j]?) i))[i]? = some (some xs[i]) := by
      rw [slots_getElem?, if_pos (by omega)]
      simp [destroyed, hx]
    have hread := Heap.read_of_block hsrc hslot
    have hdst : ((h.put t (slots n (built xs i))).put b
        (slots c (destroyed (fun j => xs[j]?) i))).block? t = some (slots n (built xs i)) := by
      rw [Heap.block?_put_other _ (Ne.symm hbt)]
      exact Heap.block?_put_same _ ht
    unfold vector.move_loop
    rw [hread]
    simp only
    rw [Heap.construct_put _ hdst (by rw [slots_length]; omega)]
    simp only
    rw [Heap.put_comm _ _ _ (Ne.symm hbt), Heap.put_put, built_step hx (by omega)]
    have hb2 : b < (h.put t (slots n (built xs (i + 1)))).blocks.length := by
      rw [Heap.put_blocks_length]; exact hb
    have hsrc2 := Heap.block?_put_same (slots c (destroyed (fun j => xs[j]?) i)) hb2
    rw [Heap.destroy_put hsrc2 hslot, Heap.put_put, destroyed_step _ (by omega)]
    simp only
    rw [ih (i + 1) (by omega), show i + 1 + k = i + (k + 1) by omega]

end loops

/-! ## Migration into a fresh buffer -/

section migration
variable {T : Type}

theorem Heap.grant_put (h : Heap T) (n : Nat) (blk : List (Option T)) :
    (h.grant n).1.put h.blocks.length blk
      = ⟨h.blocks ++ [some blk], h.log ++ [AllocEvent.allocate h.blocks.length n]⟩ := by
  simp [Heap.grant, Heap.put]

theorem Heap.grant_start (h : Heap T) (n : Nat) (xs : List T) :
    (h.grant n).1.put h.blocks.length (slots n (built xs 0)) = (h.grant n).1 := by
  rw [built_zero]
  exact Heap.put_self (Heap.grant_block? h n)

theorem Heap.grant_length (h : Heap T) (n : Nat) :
    (h.grant n).1.blocks.length = h.blocks.length + 1 := by
  simp [Heap.grant]

theorem holds_block {h : Heap T} {v : vector} {xs : List T} {b : Nat}
    (hw : v.Holds h xs) (hd : v._data = some b) :
    h.block? b = some (layout v._capacity xs) := by
  have := hw.2.2
  rw [hd] at this
  exact this

theorem xs_live (xs : List T) (j : Nat) (hj : j < xs.length) : ∃ y, xs[j]? = some y :=
  ⟨xs[j], List.getElem?_eq_getElem hj⟩

theorem layout_live {n : Nat} {xs : List T} (hl : xs.length ≤ n) (j : Nat)
    (hj : j < xs.length) : (layout n xs)[j]? = some xs[j]? := by
  rw [layout_eq_slots hl, slots_getElem?, if_pos (by omega)]

theorem reserve_copy_ok (E : ElemTraits T) (h : Heap T) (v : vector) (xs : List T) (n : Nat)
    (hw : v.Holds h xs) (hc : ∀ x ∈ xs, E.copy_throws x = false) (hn : v._size ≤ n)
    (hA : E.alloc_fails h.log n = false) :
    vector.reserve_copy E h v n
      = .ok () (v.migrated h n xs, { v with _data := some h.blocks.length }) := by
  have hlen := hw.1
  have hle := hw.2.1
  cases hd : v._data with
  | none =>
    have hcap : v._capacity = 0 := by have := hw.2.2; rw [hd] at this; exact this
    have hs0 : v._size = 0 := by omega
    have hxs : xs = [] := List.length_eq_zero.mp (by omega)
    subst hxs
    unfold vector.reserve_copy
    simp [hd, hs0, hcap, vector.copy_loop, vector.destroy_loop, Heap.deallocate,
      vector.migrated, Heap.grant, layout, Heap.allocate, hA]
  | some b =>
    have hb := holds_block hw hd
    have hblt := Heap.lt_of_block? hb
    have hb1 := Heap.grant_block?_old h n hb
    have hne : h.blocks.length ≠ b := by omega
    have hloop := copy_loop_ok E xs (h.grant n).1 b h.blocks.length n (layout v._capacity xs)
      hne (by rw [Heap.grant_length]; omega) hb1
      (fun j hj => layout_live (by omega) j hj) (by omega) hc v._size 0 (by omega)
    rw [Heap.grant_start, Nat.zero_add, ← hlen, built_length (by omega),
      Heap.grant_put, hlen] at hloop
    have hb2 : b < (Heap.mk (h.blocks ++ [some (layout n xs)])
        (h.log ++ [AllocEvent.allocate h.blocks.length n])).blocks.length := by
      simp; omega
    have hsrc : Heap.block? (Heap.mk (h.blocks ++ [some (layout n xs)])
        (h.log ++ [AllocEvent.allocate h.blocks.length n])) b
          = some (layout v._capacity xs) := by
      apply Heap.block?_of_blocks
      simp only
      rw [List.getElem?_append_left hblt]
      exact Heap.blocks_of_block? hb
    have hdl := destroy_loop_put (Heap.mk (h.blocks ++ [some (layout n xs)])
        (h.log ++ [AllocEvent.allocate h.blocks.length n])) b v._capacity
        (fun j => xs[j]?) hb2 v._size 0 (by omega)
        (fun j _ hj => xs_live xs j (by omega))
    rw [destroyed_zero, ← layout_eq_slots (by omega), Heap.put_self hsrc] at hdl
    unfold vector.reserve_copy
    rw [Heap.allocate_ok E h n hA]
    simp only [hd]
    have ha2 : (h.grant n).2 = some h.blocks.length := rfl
    rw [ha2, hloop]
    simp only
    rw [hdl]
    simp only
    rw [Heap.deallocate_put _ _ hb2]
    simp [vector.migrated, hd]

theorem reserve_move_ok (E : ElemTraits T) (h : Heap T) (v : vector) (xs : List T) (n : Nat)
    (hw : v.Holds h xs) (hn : v._size ≤ n) (hA : E.alloc_fails h.log n = false) :
    vector.reserve_move E h v n
      = .ok () (v.migrated h n xs, { v with _data := some h.blocks.length }) := by
  have hlen := hw.1
  have hle := hw.2.1
  cases hd : v._data with
  | none =>
    have hcap : v._capacity = 0 := by have := hw.2.2; rw [hd] at this; exact this
    have hs0 : v._size = 0 := by omega
    have hxs : xs = [] := List.length_eq_zero.mp (by omega)
    subst hxs
    unfold vector.reserve_move
    simp [hd, hs0, hcap, vector.move_loop, Heap.deallocate,
      vector.migrated, Heap.grant, layout, Heap.allocate, hA]
  | some b =>
    have hb := holds_block hw hd
    have hblt := Heap.lt_of_block? hb
    have hb1 := Heap.grant_block?_old h n hb
    have hne : h.blocks.length ≠ b := by omega
    have hloop := move_loop_put xs (h.grant n).1 b h.blocks.length n v._capacity
      hne (by rw [Heap.grant_length]; omega) (by rw [Heap.grant_length]; omega)
      (by omega) (by omega) v._size 0 (by omega)
    rw [Heap.grant_start, destroyed_zero, ← layout_eq_slots (by omega),
      Heap.put_self hb1, Nat.zero_add, ← hlen, built_length (by omega),
      Heap.grant_put, hlen] at hloop
    have hb2 : b < (Heap.mk (h.blocks ++ [some (layout n xs)])
        (h.log ++ [AllocEvent.allocate h.blocks.length n])).blocks.length := by
      simp; omega
    unfold vector.reserve_move
    rw [Heap.allocate_ok E h n hA]
    simp only [hd]
    have ha2 : (h.grant n).2 = some h.blocks.length := rfl
    rw [ha2, hloop]
    simp only
    rw [Heap.deallocate_put _ _ hb2]
    simp [vector.migrated, hd]

theorem migrated_block? (h : Heap T) (v : vector) (xs : List T) (n : Nat)
    (hw : v.Holds h xs) :
    (v.migrated h n xs).block? h.blocks.length = some (layout n xs) := by
  apply Heap.block?_of_blocks
  unfold vector.migrated
  cases hd : v._data with
  | none => simp
  | some b =>
    have hblt := Heap.lt_of_block? (holds_block hw hd)
    simp only
    rw [List.getElem?_set_ne (by omega)]
    simp

theorem migrate_ok (E : ElemTraits T) (h : Heap T) (v : vector) (xs : List T) (n : Nat)
    (hw : v.Holds h xs)
    (hc : E.is_nothrow_move_constructible = false → ∀ x ∈ xs, E.copy_throws x = false)
    (hn : v._size ≤ n) (hA : E.alloc_fails h.log n = false) :
    vector.migrate E h v n
      = .ok () (v.migrated h n xs, { v with _data := some h.blocks.length }) := by
  unfold vector.migrate
  cases hm : E.is_nothrow_move_constructible with
  | true => simpa using reserve_move_ok E h v xs n hw hn hA
  | false => simpa using reserve_copy_ok E h v xs n hw (hc hm) hn hA

end migration

section more
variable {T : Type}

theorem holds_deref {h : Heap T} {v : vector} {xs : List T} (hw : v.Holds h xs)
    (i : Nat) (hi : i < v._size) : (v.op_index i).deref h = xs[i]? := by
  have hlen := hw.1
  have hle := hw.2.1
  cases hd : v._data with
  | none =>
    have hcap : v._capacity = 0 := by have := hw.2.2; rw [hd] at this; exact this
    omega
  | some b =>
    have hb := holds_block hw hd
    have hx : xs[i]? = some xs[i] := List.getElem?_eq_getElem (by omega)
    have hl : (layout v._capacity xs)[i]? = some xs[i]? :=
      layout_live (by omega) i (by omega)
    rw [hx] at hl
    simp only [vector.op_index, Ref.deref, hd]
    rw [Heap.read_of_block hb hl, hx]

theorem reserve_copy_threw (E : ElemTraits T) (h : Heap T) (v : vector) (xs : List T)
    (n : Nat) (hw : v.Holds h xs) (hn : v._size ≤ n)
    (hA : E.alloc_fails h.log n = false)
    (hex : ∃ (j : Nat) (x : T), xs[j]? = some x ∧ E.copy_throws x = true) :
    vector.reserve_copy E h v n
      = .threw .construct_failure
          (⟨h.blocks ++ [none],
            h.log ++ [AllocEvent.allocate h.blocks.length n,
              AllocEvent.deallocate (some h.blocks.length) n]⟩, v) := by
  have hlen := hw.1
  have hle := hw.2.1
  cases hd : v._data with
  | none =>
    have hcap : v._capacity = 0 := by have := hw.2.2; rw [hd] at this; exact this
    obtain ⟨j, x, hj, _⟩ := hex
    rw [List.getElem?_eq_none (by omega)] at hj
    simp at hj
  | some b =>
    have hb := holds_block hw hd
    have hblt := Heap.lt_of_block? hb
    have hb1 := Heap.grant_block?_old h n hb
    have hne : h.blocks.length ≠ b := by omega
    have ht1 : h.blocks.length < (h.grant n).1.blocks.length := by
      rw [Heap.grant_length]; omega
    obtain ⟨j, x, hj, hjx⟩ := hex
    obtain ⟨m, hm, hloop⟩ := copy_loop_threw E xs (h.grant n).1 b h.blocks.length n
      (layout v._capacity xs) hne ht1 hb1
      (fun j hj => layout_live (by omega) j hj) (by omega) v._size 0 (by omega)
      ⟨j, x, Nat.zero_le _, hj, hjx⟩
    rw [Heap.grant_start] at hloop
    have hdl := destroy_loop_put (h.grant n).1 h.blocks.length n (built xs m) ht1 m 0
      (by omega)
      (fun j _ hj => by
        simp only [built]
        rw [if_pos (by omega)]
        exact xs_live xs j (by omega))
    rw [destroyed_zero] at hdl
    unfold vector.reserve_copy
    rw [Heap.allocate_ok E h n hA]
    simp only [hd]
    have ha2 : (h.grant n).2 = some h.blocks.length := rfl
    rw [ha2, hloop]
    simp only [vector.rollback]
    rw [hdl]
    simp only
    rw [Heap.deallocate_put _ _ ht1]
    simp [Heap.grant]

end more

/-! ## The claims -/

/-- Claim C1, the size/capacity invariant: in every world reached from the empty
one by constructors (default, sized, initializer-list, copy, move) and any
sequence of `reserve`, `shrink_to_fit`, `clear` and move-assignment, every
container satisfies `0 <= size() <= capacity()`. -/
theorem size_le_capacity_reachable {T : Type} (E : ElemTraits T) (ops : List (Op T))
    (w : World T) (hrun : run E World.init ops = some w) :
    ∀ v ∈ w.objs, 0 ≤ v.size ∧ v.size ≤ v.capacity := by
  intro v hv
  have hinit : (World.init : World T).SizeLeCapacity := by
    intro u hu
    simp [World.init] at hu
  exact ⟨Nat.zero_le _, run_sizeLe E ops World.init w hinit hrun v hv⟩

/-- Test point for C1: the run of `sampleOps`. -/
theorem size_le_capacity_reachable_witness :
    run throwingTraits World.init sampleOps = some sampleWorld ∧
    ∀ v ∈ sampleWorld.objs, 0 ≤ v.size ∧ v.size ≤ v.capacity :=
  ⟨rfl, size_le_capacity_reachable throwingTraits sampleOps sampleWorld rfl⟩

/-- Claim C2: the copy constructor is claimed to read only the live slots
of the source, `[0, size)`.  At `a = {1, 2, 3}; a.reserve(10);` the source is well
formed with `size() == 3 < capacity() == 10`, slot `3` is raw, and the copy
constructor, whose loop runs up to `_capacity`, reads it: the construction
ends in undefined behaviour instead of producing the copy. -/
theorem ctor_copy_reads_past_size :
    vec123.reserve intTraits heap123 10 = .ok () (heap123r, vec123r) ∧
    vec123r.Holds heap123r [1, 2, 3] ∧
    heap123r.read vec123r._data vec123r.size = none ∧
    heap123r.allocate intTraits 10 = .ok (some 2) (heap123r.grant 10).1 ∧
    vector.copy_loop intTraits vec123r._data (some 2) 3 0 (heap123r.grant 10).1
      = .ok () (3, ⟨[none, some [some 1, some 2, some 3, none, none, none, none, none, none, none],
          some [some 1, some 2, some 3, none, none, none, none, none, none, none]],
          (heap123r.grant 10).1.log⟩) ∧
    vector.ctor_copy intTraits heap123r vec123r = .ub :=
  ⟨rfl, by decide, rfl, rfl, rfl, rfl⟩

/-- Claim C4: move-assignment is claimed to leave the target with the former
size and elements of the source.  With `a = {1, 2, 3}` (object 0) and an empty `b`
(object 1), `b = std::move(a)` leaves `a` with `size() == 0` and
`capacity() == 0`, but `b` keeps its own `_size` and `_capacity`: `b.size()`
is `0`, not `3`.  With `b = {9}` instead, `b.size()` stays `1` and `a` is left
holding the old buffer of `b`. -/
theorem op_assign_move_keeps_size :
    World.op_assign_move (⟨heap123, [vec123, vector.ctor_default]⟩ : World Nat) 1 0
      = .ok () ⟨heap123, [⟨none, 0, 0⟩, ⟨some 0, 0, 0⟩]⟩ ∧
    (⟨some 0, 0, 0⟩ : vector).size ≠ vec123.size ∧
    World.op_assign_move
        (⟨⟨[some [some 1, some 2, some 3], some [some 9]], []⟩, [vec123, ⟨some 1, 1, 1⟩]⟩ :
          World Nat) 1 0
      = .ok () ⟨⟨[some [some 1, some 2, some 3], some [some 9]], []⟩,
          [⟨some 1, 0, 0⟩, ⟨some 0, 1, 1⟩]⟩ :=
  ⟨rfl, by decide, rfl⟩

/-- Claim C5 as stated fails: it promises `capacity() == new_cap` after every
growing `reserve(new_cap)` in which no element construction fails.  On the
well-formed `{1, 2, 3}`, whose elements never fail to be constructed, with an
allocator that supplies at most `2^61` slots, `reserve(2^62)` asks for more
than the capacity `3`; `allocate` throws, the exception leaves `reserve`, and
`capacity()` is still `3`, not `2^62`. -/
theorem reserve_fails_with_the_allocation :
    vec123.Holds heap123 [1, 2, 3] ∧
    (∀ x ∈ [1, 2, 3], limitedTraits.copy_throws x = false) ∧
    vec123.capacity < 2 ^ 62 ∧
    vec123.reserve limitedTraits heap123 (2 ^ 62)
      = .threw .bad_alloc
          (⟨heap123.blocks, heap123.log ++ [AllocEvent.allocate_failed (2 ^ 62)]⟩, vec123) ∧
    vec123.capacity = 3 ∧ vec123.capacity ≠ 2 ^ 62 :=
  ⟨by decide, by decide, by decide, by decide, rfl, by decide⟩

/-- Claim C5, amended: `reserve(new_cap)` on a well-formed container holding
`xs`.  With `new_cap <= capacity()` nothing changes.  Otherwise, when the
allocator supplies the new buffer and no element construction fails, the call
completes with `capacity() == new_cap`, the same `size()`, and the same
elements at the indices below `size()`, in order (the container is again well
formed and holds `xs`); and when the allocator fails, its exception leaves the
call with the fields of the container and every block of memory as they were,
so the container still holds `xs`. -/
theorem reserve_preserves_elements {T : Type} (E : ElemTraits T) (h : Heap T) (v : vector)
    (xs : List T) (new_cap : Nat) (hw : v.Holds h xs)
    (hc : E.is_nothrow_move_constructible = false → ∀ x ∈ xs, E.copy_throws x = false) :
    (new_cap ≤ v.capacity → v.reserve E h new_cap = .ok () (h, v)) ∧
    (v.capacity < new_cap → E.alloc_fails h.log new_cap = false →
      ∃ h1 v1, v.reserve E h new_cap = .ok () (h1, v1) ∧
        v1.capacity = new_cap ∧ v1.size = v.size ∧ v1.Holds h1 xs ∧
        ∀ i, i < v.size → (v1.op_index i).deref h1 = (v.op_index i).deref h) ∧
    (v.capacity < new_cap → E.alloc_fails h.log new_cap = true →
      ∃ h1, v.reserve E h new_cap = .threw .bad_alloc (h1, v) ∧
        h1.blocks = h.blocks ∧ v.Holds h1 xs ∧
        ∀ i, (v.op_index i).deref h1 = (v.op_index i).deref h) := by
  refine ⟨?_, ?_, ?_⟩
  · intro hle
    simp [vector.reserve, vector.capacity] at hle ⊢
    intro hlt
    omega
  · intro hlt hA
    simp only [vector.capacity] at hlt
    have hmig := migrate_ok E h v xs new_cap hw hc (by have := hw.2.1; omega) hA
    have hres : v.reserve E h new_cap
        = .ok () (v.migrated h new_cap xs, ⟨some h.blocks.length, v._size, new_cap⟩) := by
      unfold vector.reserve
      rw [if_neg (by omega), hmig]
    have hw1 : vector.Holds (v.migrated h new_cap xs)
        ⟨some h.blocks.length, v._size, new_cap⟩ xs :=
      ⟨hw.1, by have := hw.2.1; simp only; omega, migrated_block? h v xs new_cap hw⟩
    refine ⟨_, _, hres, rfl, rfl, hw1, ?_⟩
    intro i hi
    rw [holds_deref hw1 i hi, holds_deref hw i hi]
  · intro hlt hA
    simp only [vector.capacity] at hlt
    refine ⟨h.refuse new_cap, ?_, rfl, hw, fun _ => rfl⟩
    unfold vector.reserve
    rw [if_neg (by omega), migrate_refused E h v new_cap hA]

/-- Test point for C5: `{1, 2, 3}` then `reserve(10)` with an allocator that
supplies it, and `reserve(2^62)` with one that does not. -/
theorem reserve_preserves_elements_witness :
    vec123.Holds heap123 [1, 2, 3] ∧
    (∃ h1 v1, vec123.reserve throwingTraits heap123 10 = .ok () (h1, v1) ∧
      v1.capacity = 10 ∧ v1.size = vec123.size ∧ v1.Holds h1 [1, 2, 3] ∧
      ∀ i, i < vec123.size → (v1.op_index i).deref h1 = (vec123.op_index i).deref heap123) ∧
    ∃ h1, vec123.reserve limitedTraits heap123 (2 ^ 62) = .threw .bad_alloc (h1, vec123) ∧
      h1.blocks = heap123.blocks ∧ vec123.Holds h1 [1, 2, 3] ∧
      ∀ i, (vec123.op_index i).deref h1 = (vec123.op_index i).deref heap123 :=
  ⟨by decide,
    (reserve_preserves_elements throwingTraits heap123 vec123 [1, 2, 3] 10 (by decide)
      (by decide)).2.1 (by decide) rfl,
    (reserve_preserves_elements limitedTraits heap123 vec123 [1, 2, 3] (2 ^ 62) (by decide)
      (by decide)).2.2 (by decide) (by decide)⟩

/-- Claim C6, the strong guarantee of `reserve` for an element type migrated by
copying: when the copy of some live element throws during a growing
`reserve(new_cap)`, the exception leaves the call, the fields of the container
(`_data`, `size()`, `capacity()`) are the ones before the call, every block
that existed before the call is untouched, and so the container still holds
the same elements.  The exception is the one of the copy whenever the
allocator has supplied the new buffer; when it has not, no copy is attempted,
the exception is the one of the allocator and the same guarantee holds. -/
theorem reserve_strong_guarantee {T : Type} (E : ElemTraits T) (h : Heap T) (v : vector)
    (xs : List T) (new_cap : Nat) (hw : v.Holds h xs)
    (hm : E.is_nothrow_move_constructible = false) (hcap : v.capacity < new_cap)
    (i : Nat) (x : T) (hx : xs[i]? = some x)
    (hthrow : E.copy_throws x = true) :
    ∃ e h1, v.reserve E h new_cap = .threw e (h1, v) ∧
      (E.alloc_fails h.log new_cap = false → e = .construct_failure) ∧
      (∀ b, b < h.blocks.length → h1.blocks[b]? = h.blocks[b]?) ∧
      v.Holds h1 xs ∧
      ∀ j, (v.op_index j).deref h1 = (v.op_index j).deref h := by
  simp only [vector.capacity] at hcap
  cases hA : E.alloc_fails h.log new_cap with
  | true =>
    refine ⟨.bad_alloc, h.refuse new_cap, ?_, fun hf => Bool.noConfusion hf,
      fun _ _ => rfl, hw, fun _ => rfl⟩
    unfold vector.reserve
    rw [if_neg (by omega), migrate_refused E h v new_cap hA]
  | false =>
  have hthrew := reserve_copy_threw E h v xs new_cap hw (by have := hw.2.1; omega) hA
    ⟨i, x, hx, hthrow⟩
  have hold : ∀ b, b < h.blocks.length → (h.blocks ++ [none])[b]? = h.blocks[b]? :=
    fun b hb => List.getElem?_append_left hb
  have hblock : ∀ b, b < h.blocks.length →
      Heap.block? (Heap.mk (h.blocks ++ [none])
        (h.log ++ [AllocEvent.allocate h.blocks.length new_cap,
          AllocEvent.deallocate (some h.blocks.length) new_cap])) b = h.block? b := by
    intro b hb
    simp only [Heap.block?, hold b hb]
  refine ⟨.construct_failure, ⟨h.blocks ++ [none],
    h.log ++ [AllocEvent.allocate h.blocks.length new_cap,
    AllocEvent.deallocate (some h.blocks.length) new_cap]⟩, ?_, fun _ => rfl, hold, ?_, ?_⟩
  · unfold vector.reserve vector.migrate
    rw [if_neg (by omega), hm]
    simp only [Bool.false_eq_true, if_false]
    rw [hthrew]
  · refine ⟨hw.1, hw.2.1, ?_⟩
    cases hd : v._data with
    | none => have := hw.2.2; rw [hd] at this; exact this
    | some b =>
      have hb := holds_block hw hd
      simp only
      rw [hblock b (Heap.lt_of_block? hb)]
      exact hb
  · intro j
    simp only [vector.op_index, Ref.deref, Heap.read]
    cases hd : v._data with
    | none => rfl
    | some b =>
      simp only
      by_cases hb : b < h.blocks.length
      · rw [hblock b hb]
      · have h1 : h.block? b = none := by
          simp [Heap.block?, List.getElem?_eq_none (Nat.le_of_not_lt hb)]
        have hv := hw.2.2
        rw [hd] at hv
        simp only at hv
        rw [h1] at hv
        simp at hv

/-- Test point for C6: `{1, 7, 3}` with a copy constructor throwing on `7`,
then `reserve(5)`, the allocator supplying the buffer. -/
theorem reserve_strong_guarantee_witness :
    throwingTraits.alloc_fails heap173.log 5 = false ∧
    ∃ e h1, vector.reserve throwingTraits
        heap173 ⟨some 0, 3, 3⟩ 5 = .threw e (h1, ⟨some 0, 3, 3⟩) ∧
      (throwingTraits.alloc_fails heap173.log 5 = false → e = .construct_failure) ∧
      (∀ b, b < heap173.blocks.length → h1.blocks[b]? = heap173.blocks[b]?) ∧
      vector.Holds h1 ⟨some 0, 3, 3⟩ [1, 7, 3] ∧
      ∀ j, ((⟨some 0, 3, 3⟩ : vector).op_index j).deref h1
        = ((⟨some 0, 3, 3⟩ : vector).op_index j).deref heap173 :=
  ⟨rfl, reserve_strong_guarantee throwingTraits heap173 ⟨some 0, 3, 3⟩ [1, 7, 3] 5
    (by decide) rfl (by decide) 1 7 rfl rfl⟩


/-- Claim C7, bounds checking: `at(i)` throws exactly when `i >= size()`, the
exception being out-of-range and the state untouched; when `i < size()` it
returns the reference `operator[]` returns for `i` (the same element) and
leaves memory and container unchanged. -/
theorem at_checks_bounds {T : Type} (h : Heap T) (v : vector) (i : Nat) :
    ((∃ e st, v.at_ h i = .threw e st) ↔ v.size ≤ i) ∧
    (v.size ≤ i → v.at_ h i = .threw .out_of_range (h, v)) ∧
    (i < v.size → v.at_ h i = .ok (v.op_index i) (h, v)) := by
  simp only [vector.size, vector.at_, vector.op_index, ge_iff_le]
  by_cases hi : v._size ≤ i
  · simp [hi]
  · simp [hi]

/-- Test point for C7: `at(1)` and `at(3)` on `{1, 2, 3}`. -/
theorem at_checks_bounds_witness :
    vec123.at_ heap123 1 = .ok (vec123.op_index 1) (heap123, vec123) ∧
    (vec123.op_index 1).deref heap123 = some 2 ∧
    vec123.at_ heap123 3 = .threw .out_of_range (heap123, vec123) :=
  ⟨(at_checks_bounds heap123 vec123 1).2.2 (by decide), rfl,
    (at_checks_bounds heap123 vec123 3).2.1 (by decide)⟩

/-- Claim C8: `back()` is claimed to return the element at index `size() - 1`.
For every container it returns the reference to slot `size()`, one past the
last live element; on `{1, 2, 3}` that is slot `3`, outside the buffer, while
the last element `3` sits in slot `2`. -/
theorem back_is_one_past_last :
    (∀ v : vector, v.back = v.op_index v.size) ∧
    vec123.Holds heap123 [1, 2, 3] ∧
    vec123.back = ⟨some 0, 3⟩ ∧
    vec123.op_index (vec123.size - 1) = ⟨some 0, 2⟩ ∧
    vec123.back.deref heap123 = none ∧
    (vec123.op_index (vec123.size - 1)).deref heap123 = some 3 :=
  ⟨fun _ => rfl, by decide, rfl, rfl, rfl, rfl⟩

/-- Claim C9: `empty()` is claimed to be true exactly when `size() == 0`.  The
code decides it from `_data` alone: whatever `begin` and `end` of a pointer
are, `empty()` gives the same answer on `{1, 2, 3}` (size `3`) and on the same
container after `clear()` (size `0`, same buffer), so it is wrong on one of
the two. -/
theorem empty_ignores_size {I : Type} [DecidableEq I] (begin_fn end_fn : pointer → I) :
    vector.clear heap123 vec123
      = .ok () (⟨[some [none, none, none]], [AllocEvent.allocate 0 3]⟩, ⟨some 0, 0, 3⟩) ∧
    vec123.size = 3 ∧ (⟨some 0, 0, 3⟩ : vector).size = 0 ∧
    vector.empty begin_fn end_fn vec123 = vector.empty begin_fn end_fn ⟨some 0, 0, 3⟩ ∧
    ¬ ((vector.empty begin_fn end_fn vec123 = true ↔ vec123.size = 0) ∧
       (vector.empty begin_fn end_fn ⟨some 0, 0, 3⟩ = true ↔ (⟨some 0, 0, 3⟩ : vector).size = 0)) := by
  refine ⟨rfl, rfl, rfl, rfl, ?_⟩
  intro hboth
  have h1 : vector.empty begin_fn end_fn vec123 = vector.empty begin_fn end_fn ⟨some 0, 0, 3⟩ :=
    rfl
  have h2 : vector.empty begin_fn end_fn ⟨some 0, 0, 3⟩ = true := hboth.2.mpr rfl
  have h3 : vec123.size = 0 := hboth.1.mp (h1.trans h2)
  exact absurd h3 (by decide)

/-- Claim C10: `shrink_to_fit()` is claimed to make `capacity() == size()`.  On
`a = {1, 2, 3}; a.reserve(10);` it moves the three elements into a buffer of
`3` slots and releases the old one, but never stores the new capacity:
`capacity()` is still `10` with `size() == 3`, by either migration helper. -/
theorem shrink_to_fit_keeps_capacity :
    vec123r.Holds heap123r [1, 2, 3] ∧
    vec123r.shrink_to_fit intTraits heap123r
      = .ok () (⟨[none, none, some [some 1, some 2, some 3]],
          heap123r.log ++ [AllocEvent.allocate 2 3, AllocEvent.deallocate (some 1) 10]⟩,
          ⟨some 2, 3, 10⟩) ∧
    vec123r.shrink_to_fit throwingTraits heap123r
      = .ok () (⟨[none, none, some [some 1, some 2, some 3]],
          heap123r.log ++ [AllocEvent.allocate 2 3, AllocEvent.deallocate (some 1) 10]⟩,
          ⟨some 2, 3, 10⟩) ∧
    (⟨some 2, 3, 10⟩ : vector).capacity = 10 ∧ (⟨some 2, 3, 10⟩ : vector).size = 3 :=
  ⟨by decide, rfl, rfl, rfl, rfl⟩

/-! ## Construction, clearing and destruction in closed form -/

section construction
variable {T : Type}

/-- The fill loop of the sized constructor, when copying `value` does not throw. -/
theorem fill_loop_ok (E : ElemTraits T) (value : T) (h : Heap T) (t n : Nat)
    (ht : t < h.blocks.length) (hc : E.copy_throws value = false) :
    ∀ (k i : Nat), i + k ≤ n →
      vector.fill_loop E (some t) value k i
          (h.put t (slots n (built (List.replicate n value) i)))
        = .ok () (i + k, h.put t (slots n (built (List.replicate n value) (i + k)))) := by
  intro k
  induction k with
  | zero => intro i _; simp [vector.fill_loop]
  | succ k ih =>
    intro i hik
    have hx : (List.replicate n value)[i]? = some value := by
      rw [List.getElem?_replicate, if_pos (by omega)]
    have hdst := Heap.block?_put_same (slots n (built (List.replicate n value) i)) ht
    unfold vector.fill_loop
    simp only [hc, Bool.false_eq_true, if_false]
    rw [Heap.construct_put _ hdst (by rw [slots_length]; omega), Heap.put_put,
      built_step hx (by omega)]
    simp only
    rw [ih (i + 1) (by omega), show i + 1 + k = i + (k + 1) by omega]

/-- The loop of the initializer-list constructor, when no copy throws. -/
theorem list_loop_ok (E : ElemTraits T) (xs : List T) (h : Heap T) (t n : Nat)
    (ht : t < h.blocks.length) (hn : xs.length ≤ n)
    (hc : ∀ x ∈ xs, E.copy_throws x = false) :
    ∀ (k i : Nat), i + k = xs.length →
      vector.list_loop E (some t) (xs.drop i) i (h.put t (slots n (built xs i)))
        = .ok () (xs.length, h.put t (slots n (built xs xs.length))) := by
  intro k
  induction k with
  | zero =>
    intro i hik
    have hi : i = xs.length := by omega
    subst hi
    simp [vector.list_loop]
  | succ k ih =>
    intro i hik
    have hi : i < xs.length := by omega
    have hx : xs[i]? = some xs[i] := List.getElem?_eq_getElem hi
    have hdst := Heap.block?_put_same (slots n (built xs i)) ht
    rw [List.drop_eq_getElem_cons hi]
    unfold vector.list_loop
    simp only [hc _ (List.getElem_mem hi), Bool.false_eq_true, if_false]
    rw [Heap.construct_put _ hdst (by rw [slots_length]; omega), Heap.put_put,
      built_step hx (by omega)]
    simp only
    exact ih (i + 1) (by omega)

theorem ctor_sized_ok (E : ElemTraits T) (h : Heap T) (n : Nat) (value : T)
    (hc : E.copy_throws value = false) (hA : E.alloc_fails h.log n = false) :
    vector.ctor_sized E h n value
      = .ok ⟨some h.blocks.length, n, n⟩
          ⟨h.blocks ++ [some (layout n (List.replicate n value))],
            h.log ++ [AllocEvent.allocate h.blocks.length n]⟩ := by
  have hloop := fill_loop_ok E value (h.grant n).1 h.blocks.length n
    (by rw [Heap.grant_length]; omega) hc n 0 (by omega)
  have hlen : (List.replicate n value).length = n := List.length_replicate n value
  rw [Heap.grant_start, Nat.zero_add] at hloop
  have hb : slots n (built (List.replicate n value) n) = layout n (List.replicate n value) := by
    have hbl : slots n (built (List.replicate n value) (List.replicate n value).length)
        = layout n (List.replicate n value) := built_length (by omega)
    rw [hlen] at hbl
    exact hbl
  rw [hb, Heap.grant_put] at hloop
  unfold vector.ctor_sized
  have ha2 : (h.grant n).2 = some h.blocks.length := rfl
  rw [Heap.allocate_ok E h n hA]
  simp only [ha2, hloop]

theorem ctor_list_ok (E : ElemTraits T) (h : Heap T) (xs : List T)
    (hc : ∀ x ∈ xs, E.copy_throws x = false) (hA : E.alloc_fails h.log xs.length = false) :
    vector.ctor_list E h xs
      = .ok ⟨some h.blocks.length, xs.length, xs.length⟩
          ⟨h.blocks ++ [some (layout xs.length xs)],
            h.log ++ [AllocEvent.allocate h.blocks.length xs.length]⟩ := by
  have hloop := list_loop_ok E xs (h.grant xs.length).1 h.blocks.length xs.length
    (by rw [Heap.grant_length]; omega) (Nat.le_refl _) hc xs.length 0 (by omega)
  rw [Heap.grant_start, List.drop_zero, built_length (Nat.le_refl _),
    Heap.grant_put] at hloop
  unfold vector.ctor_list
  have ha2 : (h.grant xs.length).2 = some h.blocks.length := rfl
  rw [Heap.allocate_ok E h xs.length hA]
  simp only [ha2, hloop]

theorem layout_nil_eq_destroyed (xs : List T) (c : Nat) :
    slots c (destroyed (fun j => xs[j]?) xs.length) = layout c ([] : List T) := by
  rw [layout_eq_slots (by simp)]
  apply slots_congr
  intro j _
  unfold destroyed
  by_cases hj : j < xs.length
  · simp [hj]
  · simp [hj]
    omega

/-- The destroy loop over all the live elements of a well-formed container. -/
theorem destroy_all (h : Heap T) (v : vector) (xs : List T) (hw : v.Holds h xs) :
    vector.destroy_loop v._data v._size 0 h = some (v.cleared h) := by
  have hlen := hw.1
  have hle := hw.2.1
  cases hd : v._data with
  | none =>
    have hcap : v._capacity = 0 := by have := hw.2.2; rw [hd] at this; exact this
    have hs0 : v._size = 0 := by omega
    simp [hs0, vector.destroy_loop, vector.cleared, hd]
  | some b =>
    have hb := holds_block hw hd
    have hdl := destroy_loop_put h b v._capacity (fun j => xs[j]?) (Heap.lt_of_block? hb)
      v._size 0 (by omega) (fun j _ hj => xs_live xs j (by omega))
    rw [destroyed_zero, ← layout_eq_slots (by omega), Heap.put_self hb, Nat.zero_add,
      ← hlen, layout_nil_eq_destroyed xs v._capacity] at hdl
    rw [hlen] at hdl
    simp only [vector.cleared, hd]
    exact hdl

theorem clear_ok (h : Heap T) (v : vector) (xs : List T) (hw : v.Holds h xs) :
    v.clear h = .ok () (v.cleared h, { v with _size := 0 }) := by
  unfold vector.clear
  rw [destroy_all h v xs hw]

theorem cleared_holds (h : Heap T) (v : vector) (xs : List T) (hw : v.Holds h xs) :
    vector.Holds (v.cleared h) { v with _size := 0 } ([] : List T) := by
  refine ⟨rfl, Nat.zero_le _, ?_⟩
  cases hd : v._data with
  | none =>
    have := hw.2.2
    rw [hd] at this
    exact this
  | some b =>
    have hb := holds_block hw hd
    simp only [vector.cleared, hd]
    exact Heap.block?_put_same _ (Heap.lt_of_block? hb)

theorem cleared_log (h : Heap T) (v : vector) : (v.cleared h).log = h.log := by
  unfold vector.cleared
  cases v._data <;> rfl

theorem cleared_length (h : Heap T) (v : vector) :
    (v.cleared h).blocks.length = h.blocks.length := by
  unfold vector.cleared
  cases v._data with
  | none => rfl
  | some b => exact Heap.put_blocks_length _ _ _

/-- The destructor of a well-formed container of trivial elements completes,
with the one allocator call `deallocate(_data, _capacity)`. -/
theorem dtor_ok (h : Heap T) (v : vector) (xs : List T) (hw : v.Holds h xs) :
    ∃ h1, v.dtor true h = some h1 ∧
      h1.log = h.log ++ [AllocEvent.deallocate v._data v._capacity] := by
  unfold vector.dtor
  simp only [if_true]
  cases hd : v._data with
  | none => exact ⟨_, rfl, rfl⟩
  | some b =>
    have hb := holds_block hw hd
    exact ⟨⟨h.blocks.set b none, h.log ++ [AllocEvent.deallocate (some b) v._capacity]⟩,
      by simp [Heap.deallocate, hb], rfl⟩

end construction

/-! ## The shape of the states the operations leave -/

section shapes
variable {T : Type}

theorem reserve_move_shape (E : ElemTraits T) (h : Heap T) (v : vector) (n : Nat) :
    vector.reserve_move E h v n = .ub ∨
    (∃ e h1, vector.reserve_move E h v n = .threw e (h1, v)) ∨
    ∃ h1, vector.reserve_move E h v n
      = .ok () (h1, { v with _data := some h.blocks.length }) := by
  cases hA : E.alloc_fails h.log n with
  | true => right; left; exact ⟨_, _, reserve_move_refused E h v n hA⟩
  | false =>
  unfold vector.reserve_move
  rw [Heap.allocate_ok E h n hA]
  simp only []
  cases hm : vector.move_loop v._data (h.grant n).2 v._size 0 (h.grant n).1 with
  | none => left; rfl
  | some h1 =>
    cases hd : h1.deallocate v._data v._capacity with
    | none => left; simp only [hd]
    | some h2 => right; right; exact ⟨h2, by simp only [hd]; rfl⟩

theorem reserve_copy_shape (E : ElemTraits T) (h : Heap T) (v : vector) (n : Nat) :
    vector.reserve_copy E h v n = .ub ∨
    (∃ e h1, vector.reserve_copy E h v n = .threw e (h1, v)) ∨
    ∃ h1, vector.reserve_copy E h v n
      = .ok () (h1, { v with _data := some h.blocks.length }) := by
  cases hA : E.alloc_fails h.log n with
  | true => right; left; exact ⟨_, _, reserve_copy_refused E h v n hA⟩
  | false =>
  unfold vector.reserve_copy
  rw [Heap.allocate_ok E h n hA]
  simp only []
  cases hm : vector.copy_loop E v._data (h.grant n).2 v._size 0 (h.grant n).1 with
  | ub => left; rfl
  | threw e st =>
    obtain ⟨i, h1⟩ := st
    cases hr : vector.rollback (h.grant n).2 i n h1 with
    | none => left; simp only [hr]
    | some h2 => right; left; exact ⟨e, h2, by simp only [hr]⟩
  | ok u st =>
    obtain ⟨i, h1⟩ := st
    cases hd : vector.destroy_loop v._data v._size 0 h1 with
    | none => left; simp only [hd]
    | some h2 =>
      cases hx : h2.deallocate v._data v._capacity with
      | none => left; simp only [hd, hx]
      | some h3 => right; right; exact ⟨h3, by simp only [hd, hx]; rfl⟩

theorem migrate_shape (E : ElemTraits T) (h : Heap T) (v : vector) (n : Nat) :
    vector.migrate E h v n = .ub ∨
    (∃ e h1, vector.migrate E h v n = .threw e (h1, v)) ∨
    ∃ h1, vector.migrate E h v n = .ok () (h1, { v with _data := some h.blocks.length }) := by
  unfold vector.migrate
  split
  · exact reserve_move_shape E h v n
  · exact reserve_copy_shape E h v n

theorem reserve_evolved (E : ElemTraits T) (h : Heap T) (v : vector) (n : Nat)
    (s : Heap T × vector) (hs : (v.reserve E h n).state? = some s) : vector.Evolved h v s.2 := by
  unfold vector.reserve at hs
  split at hs
  · simp [Res.state?] at hs
    subst hs
    exact Or.inl rfl
  · rename_i hlt
    rcases migrate_shape E h v n with hu | ⟨e, h1, ht⟩ | ⟨h1, hok⟩
    · simp [hu, Res.state?] at hs
    · simp [ht, Res.state?] at hs
      subst hs
      exact Or.inl rfl
    · simp [hok, Res.state?] at hs
      subst hs
      exact Or.inr (Or.inr ⟨rfl, rfl, by simp only; omega⟩)

theorem shrink_to_fit_evolved (E : ElemTraits T) (h : Heap T) (v : vector)
    (s : Heap T × vector) (hs : (v.shrink_to_fit E h).state? = some s) :
    vector.Evolved h v s.2 := by
  unfold vector.shrink_to_fit at hs
  rcases migrate_shape E h v v._size with hu | ⟨e, h1, ht⟩ | ⟨h1, hok⟩
  · simp [hu, Res.state?] at hs
  · simp [ht, Res.state?] at hs
    subst hs
    exact Or.inl rfl
  · simp [hok, Res.state?] at hs
    subst hs
    exact Or.inr (Or.inr ⟨rfl, rfl, Nat.le_refl _⟩)

theorem clear_evolved (h : Heap T) (v : vector)
    (s : Heap T × vector) (hs : (v.clear h).state? = some s) : vector.Evolved h v s.2 := by
  unfold vector.clear at hs
  cases hd : vector.destroy_loop v._data v._size 0 h with
  | none => simp [hd, Res.state?] at hs
  | some h1 =>
    simp [hd, Res.state?] at hs
    subst hs
    exact Or.inr (Or.inl rfl)

theorem evolved_size {h : Heap T} {v v1 : vector} (he : vector.Evolved h v v1) :
    v1._size ≤ v._size := by
  rcases he with rfl | rfl | ⟨_, hs, _⟩
  · exact Nat.le_refl _
  · exact Nat.zero_le _
  · omega

theorem evolved_buffer {h : Heap T} {v v1 : vector} (he : vector.Evolved h v v1)
    (hv : 0 < v._capacity → v._data ≠ none) : 0 < v1._capacity → v1._data ≠ none := by
  rcases he with rfl | rfl | ⟨hd, _, _⟩
  · exact hv
  · exact hv
  · intro _
    rw [hd]
    simp

theorem ctor_sized_data (E : ElemTraits T) (h : Heap T) (n : Nat) (x : T)
    (v : vector) (hp : Heap T) (hr : vector.ctor_sized E h n x = .ok v hp) :
    v._data = some h.blocks.length := by
  cases hA : E.alloc_fails h.log n with
  | true =>
    rw [ctor_sized_refused E h n x hA] at hr
    simp at hr
  | false =>
  unfold vector.ctor_sized at hr
  rw [Heap.allocate_ok E h n hA] at hr
  simp only [] at hr
  cases hm : vector.fill_loop E (h.grant n).2 x n 0 (h.grant n).1 with
  | ub => simp [hm] at hr
  | threw e st =>
    obtain ⟨i, h1⟩ := st
    cases hb : vector.rollback (h.grant n).2 i n h1 <;> simp [hm, hb] at hr
  | ok u st =>
    obtain ⟨i, h1⟩ := st
    simp [hm] at hr
    rw [← hr.1]
    rfl

theorem ctor_list_data (E : ElemTraits T) (h : Heap T) (l : List T)
    (v : vector) (hp : Heap T) (hr : vector.ctor_list E h l = .ok v hp) :
    v._data = some h.blocks.length := by
  cases hA : E.alloc_fails h.log l.length with
  | true =>
    rw [ctor_list_refused E h l hA] at hr
    simp at hr
  | false =>
  unfold vector.ctor_list at hr
  rw [Heap.allocate_ok E h l.length hA] at hr
  simp only [] at hr
  cases hm : vector.list_loop E (h.grant l.length).2 l 0 (h.grant l.length).1 with
  | ub => simp [hm] at hr
  | threw e st =>
    obtain ⟨i, h1⟩ := st
    simp [hm] at hr
  | ok u st =>
    obtain ⟨i, h1⟩ := st
    simp [hm] at hr
    rw [← hr.1]
    rfl

theorem ctor_copy_data (E : ElemTraits T) (h : Heap T) (rhs : vector)
    (v : vector) (hp : Heap T) (hr : vector.ctor_copy E h rhs = .ok v hp) :
    v._data = some h.blocks.length := by
  cases hA : E.alloc_fails h.log rhs._capacity with
  | true =>
    rw [ctor_copy_refused E h rhs hA] at hr
    simp at hr
  | false =>
  unfold vector.ctor_copy at hr
  rw [Heap.allocate_ok E h rhs._capacity hA] at hr
  simp only [] at hr
  cases hm : vector.copy_loop E rhs._data (h.grant rhs._capacity).2 rhs._capacity 0
      (h.grant rhs._capacity).1 with
  | ub => simp [hm] at hr
  | threw e st =>
    obtain ⟨i, h1⟩ := st
    simp [hm] at hr
  | ok u st =>
    obtain ⟨i, h1⟩ := st
    simp [hm] at hr
    rw [← hr.1]
    rfl

theorem World.update_obj_state (w : World T) (this : Nat) (r : Res (Heap T × vector) Unit)
    (w1 : World T) (h1 : (w.update_obj this r).state? = some w1) :
    ∃ s, r.state? = some s ∧ w1 = ⟨s.1, w.objs.set this s.2⟩ := by
  unfold World.update_obj at h1
  cases r with
  | ub => simp [Res.state?] at h1
  | ok u st =>
    obtain ⟨hp, v⟩ := st
    simp [Res.state?] at h1
    exact ⟨(hp, v), rfl, h1.symm⟩
  | threw e st =>
    obtain ⟨hp, v⟩ := st
    simp [Res.state?] at h1
    exact ⟨(hp, v), rfl, h1.symm⟩

theorem World.construct_obj_state (w : World T) (r : Res (Heap T) vector)
    (w1 : World T) (h1 : (w.construct_obj r).state? = some w1) :
    w1.objs = w.objs ∨ ∃ v hp, r = .ok v hp ∧ w1.objs = w.objs ++ [v] := by
  unfold World.construct_obj at h1
  cases r with
  | ub => simp [Res.state?] at h1
  | ok v hp =>
    simp [Res.state?] at h1
    subst h1
    exact Or.inr ⟨v, hp, rfl, rfl⟩
  | threw e hp =>
    simp [Res.state?] at h1
    subst h1
    exact Or.inl rfl

theorem getElem?_set_cases {α : Type} {l : List α} {j i : Nat} {a x : α}
    (hx : (l.set j a)[i]? = some x) : (i = j ∧ x = a) ∨ l[i]? = some x := by
  rw [List.getElem?_set] at hx
  by_cases hji : j = i
  · subst hji
    simp only [if_true] at hx
    split at hx
    · left
      simp at hx
      exact ⟨rfl, hx.symm⟩
    · simp at hx
  · rw [if_neg hji] at hx
    exact Or.inr hx

theorem getElem?_push_old {α : Type} {l : List α} {i : Nat} {a x v : α}
    (hv : l[i]? = some v) (hx : (l ++ [a])[i]? = some x) : x = v := by
  have hi : i < l.length := by
    by_contra hlt
    rw [List.getElem?_eq_none (by omega)] at hv
    simp at hv
  rw [List.getElem?_append_left hi, hv] at hx
  simp at hx
  exact hx.symm

end shapes

section worlds
variable {T : Type}

theorem World.buffer_set {w : World T} (hw : w.CapacityHasBuffer) (hp : Heap T)
    (i : Nat) (v : vector) (hv : 0 < v._capacity → v._data ≠ none) :
    World.CapacityHasBuffer ⟨hp, w.objs.set i v⟩ := by
  intro u hu
  rcases List.mem_or_eq_of_mem_set hu with hmem | rfl
  · exact hw u hmem
  · exact hv

theorem World.buffer_push {w : World T} (hw : w.CapacityHasBuffer) (hp : Heap T)
    (v : vector) (hv : 0 < v._capacity → v._data ≠ none) :
    World.CapacityHasBuffer ⟨hp, w.objs ++ [v]⟩ := by
  intro u hu
  rcases List.mem_append.mp hu with hmem | hmem
  · exact hw u hmem
  · rw [List.mem_singleton] at hmem
    subst hmem
    exact hv

theorem World.buffer_construct {w : World T} (hw : w.CapacityHasBuffer)
    (r : Res (Heap T) vector) (hr : ∀ v hp, r = .ok v hp → v._data ≠ none)
    (w1 : World T) (h1 : (w.construct_obj r).state? = some w1) : w1.CapacityHasBuffer := by
  rcases World.construct_obj_state w r w1 h1 with hsame | ⟨v, hp, hok, hpush⟩
  · intro u hu
    rw [hsame] at hu
    exact hw u hu
  · intro u hu
    rw [hpush] at hu
    exact World.buffer_push hw hp v (fun _ => hr v hp hok) u hu

theorem World.buffer_update {w : World T} (hw : w.CapacityHasBuffer) (this : Nat)
    (v : vector) (hg : w.objs[this]? = some v) (r : Res (Heap T × vector) Unit)
    (hr : ∀ s, r.state? = some s → vector.Evolved w.heap v s.2)
    (w1 : World T) (h1 : (w.update_obj this r).state? = some w1) : w1.CapacityHasBuffer := by
  obtain ⟨s, hs, rfl⟩ := World.update_obj_state w this r w1 h1
  exact World.buffer_set hw s.1 this s.2
    (evolved_buffer (hr s hs) (hw v (List.getElem?_mem hg)))

theorem step_buffer (E : ElemTraits T) (w : World T) (op : Op T) (hop : op.not_assign_move)
    (hw : w.CapacityHasBuffer) (w1 : World T) (h1 : (step E w op).state? = some w1) :
    w1.CapacityHasBuffer := by
  cases op with
  | ctor_default =>
    simp [step, Res.state?] at h1
    subst h1
    exact World.buffer_push hw _ _ (by simp [vector.ctor_default])
  | ctor_sized n x =>
    refine World.buffer_construct hw _ ?_ w1 h1
    intro v hp hr
    rw [ctor_sized_data E _ n x v hp hr]
    simp
  | ctor_list l =>
    refine World.buffer_construct hw _ ?_ w1 h1
    intro v hp hr
    rw [ctor_list_data E _ l v hp hr]
    simp
  | ctor_copy rhs =>
    simp only [step] at h1
    cases hg : w.objs[rhs]? with
    | none => simp [hg, Res.state?] at h1
    | some r =>
      simp only [hg] at h1
      refine World.buffer_construct hw _ ?_ w1 h1
      intro v hp hr
      rw [ctor_copy_data E _ r v hp hr]
      simp
  | ctor_move rhs =>
    simp only [step] at h1
    cases hg : w.objs[rhs]? with
    | none => simp [hg, Res.state?] at h1
    | some r =>
      simp only [hg, Res.state?, Option.some.injEq] at h1
      subst h1
      have hr := hw r (List.getElem?_mem hg)
      intro u hu
      rcases List.mem_append.mp hu with hmem | hmem
      · rcases List.mem_or_eq_of_mem_set hmem with hm | rfl
        · exact hw u hm
        · simp [vector.ctor_move]
      · rw [List.mem_singleton] at hmem
        subst hmem
        simpa [vector.ctor_move] using hr
  | reserve this n =>
    simp only [step] at h1
    cases hg : w.objs[this]? with
    | none => simp [hg, Res.state?] at h1
    | some v =>
      simp only [hg] at h1
      exact World.buffer_update hw this v hg _ (fun s hs => reserve_evolved E _ v n s hs) w1 h1
  | shrink_to_fit this =>
    simp only [step] at h1
    cases hg : w.objs[this]? with
    | none => simp [hg, Res.state?] at h1
    | some v =>
      simp only [hg] at h1
      exact World.buffer_update hw this v hg _ (fun s hs => shrink_to_fit_evolved E _ v s hs)
        w1 h1
  | clear this =>
    simp only [step] at h1
    cases hg : w.objs[this]? with
    | none => simp [hg, Res.state?] at h1
    | some v =>
      simp only [hg] at h1
      exact World.buffer_update hw this v hg _ (fun s hs => clear_evolved _ v s hs) w1 h1
  | assign_move this rhs => exact absurd hop (by simp [Op.not_assign_move])

theorem run_buffer (E : ElemTraits T) (ops : List (Op T)) :
    ∀ (w0 w : World T), (∀ op ∈ ops, op.not_assign_move) → w0.CapacityHasBuffer →
      run E w0 ops = some w → w.CapacityHasBuffer := by
  induction ops with
  | nil =>
    intro w0 w _ h0 hr
    simp [run] at hr
    subst hr
    exact h0
  | cons op rest ih =>
    intro w0 w hops h0 hr
    simp only [run] at hr
    cases hs : (step E w0 op).state? with
    | none => simp [hs] at hr
    | some w1 =>
      simp only [hs] at hr
      exact ih w1 w (fun o ho => hops o (List.mem_cons_of_mem _ ho))
        (step_buffer E w0 op (hops op (List.mem_cons_self _ _)) h0 w1 hs) hr

/-- The size of an object that exists before an operation does not grow in it. -/
theorem step_size (E : ElemTraits T) (w : World T) (op : Op T) (w1 : World T)
    (i : Nat) (v v1 : vector) (hs : (step E w op).state? = some w1)
    (hv : w.objs[i]? = some v) (hv1 : w1.objs[i]? = some v1) : v1._size ≤ v._size := by
  have hsame : ∀ x : vector, w.objs[i]? = some x → x._size ≤ v._size := by
    intro x hx
    rw [hv] at hx
    simp at hx
    subst hx
    exact Nat.le_refl _
  have hupd : ∀ (this : Nat) (u : vector), w.objs[this]? = some u →
      ∀ r : Res (Heap T × vector) Unit, (∀ s, r.state? = some s → vector.Evolved w.heap u s.2) →
      (w.update_obj this r).state? = some w1 → v1._size ≤ v._size := by
    intro this u hu r hr h1
    obtain ⟨s, hs1, rfl⟩ := World.update_obj_state w this r w1 h1
    rcases getElem?_set_cases hv1 with ⟨hi, hx⟩ | hold
    · subst hi
      subst hx
      rw [hv] at hu
      simp at hu
      subst hu
      exact evolved_size (hr s hs1)
    · exact hsame v1 hold
  have hcon : ∀ r : Res (Heap T) vector, (w.construct_obj r).state? = some w1 →
      v1._size ≤ v._size := by
    intro r h1
    rcases World.construct_obj_state w r w1 h1 with hsm | ⟨x, hp, _, hpush⟩
    · rw [hsm] at hv1
      exact hsame v1 hv1
    · rw [hpush] at hv1
      rw [getElem?_push_old hv hv1]
  cases op with
  | ctor_default =>
    simp [step, Res.state?] at hs
    subst hs
    rw [getElem?_push_old hv hv1]
  | ctor_sized n x => exact hcon _ hs
  | ctor_list l => exact hcon _ hs
  | ctor_copy rhs =>
    simp only [step] at hs
    cases hg : w.objs[rhs]? with
    | none => simp [hg, Res.state?] at hs
    | some r =>
      simp only [hg] at hs
      exact hcon _ hs
  | ctor_move rhs =>
    simp only [step] at hs
    cases hg : w.objs[rhs]? with
    | none => simp [hg, Res.state?] at hs
    | some r =>
      simp only [hg, Res.state?, Option.some.injEq] at hs
      subst hs
      have hi : i < (w.objs.set rhs (vector.ctor_move r).2).length := by
        rw [List.length_set]
        by_contra hlt
        rw [List.getElem?_eq_none (by omega)] at hv
        simp at hv
      simp only at hv1
      rw [List.getElem?_append_left hi] at hv1
      rcases getElem?_set_cases hv1 with ⟨_, hx⟩ | hold
      · subst hx
        simp [vector.ctor_move]
      · exact hsame v1 hold
  | reserve this n =>
    simp only [step] at hs
    cases hg : w.objs[this]? with
    | none => simp [hg, Res.state?] at hs
    | some u =>
      simp only [hg] at hs
      exact hupd this u hg _ (fun s hs1 => reserve_evolved E _ u n s hs1) hs
  | shrink_to_fit this =>
    simp only [step] at hs
    cases hg : w.objs[this]? with
    | none => simp [hg, Res.state?] at hs
    | some u =>
      simp only [hg] at hs
      exact hupd this u hg _ (fun s hs1 => shrink_to_fit_evolved E _ u s hs1) hs
  | clear this =>
    simp only [step] at hs
    cases hg : w.objs[this]? with
    | none => simp [hg, Res.state?] at hs
    | some u =>
      simp only [hg] at hs
      exact hupd this u hg _ (fun s hs1 => clear_evolved _ u s hs1) hs
  | assign_move this rhs =>
    simp only [step, World.op_assign_move] at hs
    split at hs
    · simp [Res.state?] at hs
      subst hs
      exact hsame v1 hv1
    · cases ha : w.objs[this]? with
      | none => simp [ha, Res.state?] at hs
      | some a =>
        cases hb : w.objs[rhs]? with
        | none => simp [ha, hb, Res.state?] at hs
        | some r =>
          simp only [ha, hb, Res.state?, Option.some.injEq] at hs
          subst hs
          simp only at hv1
          rcases getElem?_set_cases hv1 with ⟨_, hx⟩ | hold
          · subst hx
            exact Nat.zero_le _
          · rcases getElem?_set_cases hold with ⟨hi, hx⟩ | hold2
            · subst hi
              subst hx
              rw [hv] at ha
              simp at ha
              subst ha
              exact Nat.le_refl _
            · exact hsame v1 hold2

theorem op_assign_copy_objs (is_trivial : Bool) (w : World T) (this rhs : Nat) (w1 : World T)
    (hs : (w.op_assign_copy is_trivial this rhs).state? = some w1) : w1.objs = w.objs := by
  unfold World.op_assign_copy at hs
  split at hs
  · cases ha : w.objs[this]? with
    | none => simp [ha, Res.state?] at hs
    | some a =>
      cases hb : w.objs[rhs]? with
      | none => simp [ha, hb, Res.state?] at hs
      | some r =>
        simp only [ha, hb] at hs
        cases h1 : a.dtor is_trivial w.heap with
        | none => simp [h1, Res.state?] at hs
        | some x =>
          simp only [h1] at hs
          cases h2 : vector.ctor_default.dtor is_trivial x with
          | none => simp [h2, Res.state?] at hs
          | some y =>
            simp only [h2, Res.state?, Option.some.injEq] at hs
            subst hs
            rfl
  · simp [Res.state?] at hs
    subst hs
    rfl

end worlds

/-! ## The allocator calls of a lifetime -/

section accounting
variable {T : Type}

theorem paired_append (a : Bool) (ev es : List AllocEvent) :
    paired a (ev ++ es) = es.foldl (pair_step a) (paired a ev) := by
  simp [paired, List.foldl_append]

theorem counter_append_allocate (ev : List AllocEvent) (p n : Nat) :
    TestAllocator.counter (ev ++ [AllocEvent.allocate p n])
      = (TestAllocator.counter ev + n) % 2 ^ 64 := by
  simp [TestAllocator.counter, List.foldl_append]

theorem counter_append_deallocate (ev : List AllocEvent) (p : pointer) (n : Nat) :
    TestAllocator.counter (ev ++ [AllocEvent.deallocate p n])
      = (TestAllocator.counter ev + 2 ^ 64 - n % 2 ^ 64) % 2 ^ 64 := by
  simp [TestAllocator.counter, List.foldl_append]

theorem paired_append_allocate (a : Bool) (ev : List AllocEvent) (p n : Nat)
    (out : List (Nat × Nat)) (hp : paired a ev = some out) :
    paired a (ev ++ [AllocEvent.allocate p n]) = some (out ++ [(p, n)]) := by
  rw [paired_append, hp]
  rfl

theorem paired_append_deallocate (a : Bool) (ev : List AllocEvent) (p n : Nat)
    (out : List (Nat × Nat)) (hp : paired a ev = some out) (hmem : (p, n) ∈ out) :
    paired a (ev ++ [AllocEvent.deallocate (some p) n]) = some (out.erase (p, n)) := by
  rw [paired_append, hp]
  simp [pair_step, hmem]

theorem paired_append_null (ev : List AllocEvent) (out : List (Nat × Nat))
    (hp : paired true ev = some out) :
    paired true (ev ++ [AllocEvent.deallocate none 0]) = some out := by
  rw [paired_append, hp]
  simp [pair_step]

/-- Releasing what a well-formed container owns: the call
`deallocate(_data, _capacity)` after calls that leave `owned ++ rest`
outstanding leaves `rest`. -/
theorem paired_release (h : Heap T) (v : vector) (xs : List T) (hw : v.Holds h xs)
    (ev : List AllocEvent) (rest : List (Nat × Nat))
    (hp : paired true ev = some (v.owned ++ rest)) :
    paired true (ev ++ [AllocEvent.deallocate v._data v._capacity]) = some rest := by
  cases hd : v._data with
  | none =>
    have hcap : v._capacity = 0 := by have := hw.2.2; rw [hd] at this; exact this
    rw [hcap]
    have := paired_append_null ev _ hp
    simpa [vector.owned, hd] using this
  | some b =>
    have hown : v.owned = [(b, v._capacity)] := by simp [vector.owned, hd]
    rw [hown] at hp
    have := paired_append_deallocate true ev b v._capacity _ hp (by simp)
    simpa using this

theorem holds_frame {h h1 : Heap T} {v : vector} {xs : List T} (hw : v.Holds h xs)
    (hf : ∀ b, b < h.blocks.length → h1.blocks[b]? = h.blocks[b]?) : v.Holds h1 xs := by
  refine ⟨hw.1, hw.2.1, ?_⟩
  cases hd : v._data with
  | none => have := hw.2.2; rw [hd] at this; exact this
  | some b =>
    have hb := holds_block hw hd
    simp only
    simp only [Heap.block?, hf b (Heap.lt_of_block? hb)]
    exact hb

theorem ctor_copy_ok (E : ElemTraits T) (h : Heap T) (rhs : vector) (xs : List T)
    (hw : rhs.Holds h xs) (hfull : rhs._capacity = rhs._size)
    (hc : ∀ x ∈ xs, E.copy_throws x = false)
    (hA : E.alloc_fails h.log rhs._capacity = false) :
    vector.ctor_copy E h rhs
      = .ok ⟨some h.blocks.length, rhs._size, rhs._capacity⟩
          ⟨h.blocks ++ [some (layout rhs._capacity xs)],
            h.log ++ [AllocEvent.allocate h.blocks.length rhs._capacity]⟩ := by
  have hlen := hw.1
  have ha2 : (h.grant rhs._capacity).2 = some h.blocks.length := rfl
  cases hd : rhs._data with
  | none =>
    have hcap : rhs._capacity = 0 := by have := hw.2.2; rw [hd] at this; exact this
    have hxs : xs = [] := List.length_eq_zero.mp (by omega)
    subst hxs
    rw [hcap] at hA
    unfold vector.ctor_copy
    simp [hd, hcap, vector.copy_loop, Heap.grant, layout, Heap.allocate, hA]
  | some b =>
    have hb := holds_block hw hd
    have hblt := Heap.lt_of_block? hb
    have hb1 := Heap.grant_block?_old h rhs._capacity hb
    have hne : h.blocks.length ≠ b := by omega
    have hloop := copy_loop_ok E xs (h.grant rhs._capacity).1 b h.blocks.length
      rhs._capacity (layout rhs._capacity xs) hne (by rw [Heap.grant_length]; omega) hb1
      (fun j hj => layout_live (by omega) j hj) (by omega) hc rhs._capacity 0 (by omega)
    rw [Heap.grant_start, Nat.zero_add] at hloop
    have hbl : slots rhs._capacity (built xs rhs._capacity) = layout rhs._capacity xs := by
      have hx : slots rhs._capacity (built xs xs.length) = layout rhs._capacity xs :=
        built_length (by omega)
      rw [hlen, ← hfull] at hx
      exact hx
    rw [hbl, Heap.grant_put] at hloop
    unfold vector.ctor_copy
    rw [Heap.allocate_ok E h rhs._capacity hA]
    simp only [hd, ha2, hloop]

theorem no_failed_left {ev es : List AllocEvent} (hnf : no_failed (ev ++ es)) :
    no_failed ev :=
  fun n hm => hnf n (List.mem_append_left es hm)

theorem accounted_ctor (E : ElemTraits T) (h0 : Heap T) (c : Ctor T)
    (hc : c.admissible E h0) :
    ∃ v h1, c.run E h0 = .ok v h1 ∧ v.Accounted h0 h1 := by
  cases c with
  | default =>
    refine ⟨vector.ctor_default, h0, rfl, [], [], ⟨rfl, Nat.le_refl _, rfl⟩, by simp,
      fun _ => ⟨rfl, rfl⟩⟩
  | sized n value =>
    refine ⟨_, _, ctor_sized_ok E h0 n value hc.2 hc.1, List.replicate n value,
      [AllocEvent.allocate h0.blocks.length n], ?_, rfl, fun _ => ⟨rfl, ?_⟩⟩
    · refine ⟨List.length_replicate n value, Nat.le_refl _, ?_⟩
      apply Heap.block?_of_blocks
      simp
    · simp [TestAllocator.counter]
  | list l =>
    refine ⟨_, _, ctor_list_ok E h0 l hc.2 hc.1, l,
      [AllocEvent.allocate h0.blocks.length l.length], ?_, rfl, fun _ => ⟨rfl, ?_⟩⟩
    · refine ⟨rfl, Nat.le_refl _, ?_⟩
      apply Heap.block?_of_blocks
      simp
    · simp [TestAllocator.counter]
  | copy rhs =>
    obtain ⟨hA, xs, hw, hfull, hthrow⟩ := hc
    refine ⟨_, _, ctor_copy_ok E h0 rhs xs hw hfull hthrow hA, xs,
      [AllocEvent.allocate h0.blocks.length rhs._capacity], ?_, rfl, fun _ => ⟨rfl, ?_⟩⟩
    · refine ⟨hw.1, hw.2.1, ?_⟩
      apply Heap.block?_of_blocks
      simp
    · simp [TestAllocator.counter]

theorem accounted_grow (h0 h : Heap T) (v : vector) (xs : List T) (n : Nat)
    (hw : v.Holds h xs) (hn : v._size ≤ n) (ev : List AllocEvent) (hlog : h.log = h0.log ++ ev)
    (hcond : no_failed ev →
      paired true ev = some v.owned ∧ TestAllocator.counter ev = v._capacity % 2 ^ 64) :
    vector.Accounted h0 (v.migrated h n xs) ⟨some h.blocks.length, v._size, n⟩ := by
  refine ⟨xs, ev ++ [AllocEvent.allocate h.blocks.length n,
    AllocEvent.deallocate v._data v._capacity],
    ⟨hw.1, hn, migrated_block? h v xs n hw⟩, ?_, fun hnf => ?_⟩
  · simp [vector.migrated, hlog]
  · obtain ⟨hp, hcnt⟩ := hcond (no_failed_left hnf)
    refine ⟨?_, ?_⟩
    · have h1 := paired_append_allocate true ev h.blocks.length n _ hp
      have h2 := paired_release h v xs hw _ [(h.blocks.length, n)] h1
      simpa [vector.owned] using h2
    · have e : ev ++ [AllocEvent.allocate h.blocks.length n,
          AllocEvent.deallocate v._data v._capacity]
          = (ev ++ [AllocEvent.allocate h.blocks.length n])
            ++ [AllocEvent.deallocate v._data v._capacity] := by simp
      rw [e, counter_append_deallocate, counter_append_allocate, hcnt]
      simp only
      omega

theorem accounted_threw (h0 h : Heap T) (v : vector) (xs : List T) (n : Nat)
    (hw : v.Holds h xs) (ev : List AllocEvent) (hlog : h.log = h0.log ++ ev)
    (hcond : no_failed ev →
      paired true ev = some v.owned ∧ TestAllocator.counter ev = v._capacity % 2 ^ 64) :
    vector.Accounted h0
      ⟨h.blocks ++ [none],
        h.log ++ [AllocEvent.allocate h.blocks.length n,
          AllocEvent.deallocate (some h.blocks.length) n]⟩ v := by
  refine ⟨xs, ev ++ [AllocEvent.allocate h.blocks.length n,
    AllocEvent.deallocate (some h.blocks.length) n],
    holds_frame hw (fun b hb => List.getElem?_append_left hb), ?_, fun hnf => ?_⟩
  · simp [hlog]
  · obtain ⟨hp, hcnt⟩ := hcond (no_failed_left hnf)
    refine ⟨?_, ?_⟩
    · have e : ev ++ [AllocEvent.allocate h.blocks.length n,
          AllocEvent.deallocate (some h.blocks.length) n]
          = (ev ++ [AllocEvent.allocate h.blocks.length n])
            ++ [AllocEvent.deallocate (some h.blocks.length) n] := by simp
      have h1 := paired_append_allocate true ev h.blocks.length n _ hp
      have h2 := paired_append_deallocate true _ h.blocks.length n _ h1 (by simp)
      rw [e, h2]
      congr 1
      cases hd : v._data with
      | none => simp [vector.owned, hd]
      | some b =>
        have hlt := Heap.lt_of_block? (holds_block hw hd)
        have hne : ¬ ((b, v._capacity) == (h.blocks.length, n)) = true := by
          simp
          omega
        simp only [vector.owned, hd, List.singleton_append]
        rw [List.erase_cons_tail hne]
        simp
    · have e : ev ++ [AllocEvent.allocate h.blocks.length n,
          AllocEvent.deallocate (some h.blocks.length) n]
          = (ev ++ [AllocEvent.allocate h.blocks.length n])
            ++ [AllocEvent.deallocate (some h.blocks.length) n] := by simp
      rw [e, counter_append_deallocate, counter_append_allocate, hcnt]
      omega

/-- After an allocation that failed the container is as before; the failed
call is in the log, so nothing is promised of the calls. -/
theorem accounted_refused (h0 h : Heap T) (v : vector) (xs : List T) (n : Nat)
    (hw : v.Holds h xs) (ev : List AllocEvent) (hlog : h.log = h0.log ++ ev) :
    vector.Accounted h0 (h.refuse n) v := by
  refine ⟨xs, ev ++ [AllocEvent.allocate_failed n], hw, ?_, fun hnf => ?_⟩
  · simp [Heap.refuse, hlog]
  · exact absurd (List.mem_append_right ev (List.mem_singleton.mpr rfl)) (hnf n)

theorem accounted_reserve (E : ElemTraits T) (h0 h : Heap T) (v : vector) (n : Nat)
    (ha : v.Accounted h0 h) :
    ∃ s, (v.reserve E h n).state? = some s ∧ vector.Accounted h0 s.1 s.2 := by
  obtain ⟨xs, ev, hw, hlog, hcond⟩ := ha
  by_cases hle : n ≤ v._capacity
  · exact ⟨(h, v), by simp [vector.reserve, hle, Res.state?], xs, ev, hw, hlog, hcond⟩
  · have hsz : v._size ≤ n := by have := hw.2.1; omega
    cases hA : E.alloc_fails h.log n with
    | true =>
      refine ⟨(h.refuse n, v), ?_, accounted_refused h0 h v xs n hw ev hlog⟩
      unfold vector.reserve
      rw [if_neg hle, migrate_refused E h v n hA]
      rfl
    | false =>
    by_cases hex : E.is_nothrow_move_constructible = false ∧
        ∃ (j : Nat) (x : T), xs[j]? = some x ∧ E.copy_throws x = true
    · have hthrew := reserve_copy_threw E h v xs n hw hsz hA hex.2
      refine ⟨(⟨h.blocks ++ [none],
        h.log ++ [AllocEvent.allocate h.blocks.length n,
          AllocEvent.deallocate (some h.blocks.length) n]⟩, v), ?_,
        accounted_threw h0 h v xs n hw ev hlog hcond⟩
      unfold vector.reserve vector.migrate
      rw [if_neg hle, hex.1]
      simp only [Bool.false_eq_true, if_false]
      rw [hthrew]
      rfl
    · have hc : E.is_nothrow_move_constructible = false → ∀ x ∈ xs, E.copy_throws x = false := by
        intro hm x hx
        obtain ⟨j, hj⟩ := List.mem_iff_getElem?.mp hx
        by_contra hne
        exact hex ⟨hm, j, x, hj, by simpa using hne⟩
      have hmig := migrate_ok E h v xs n hw hc hsz hA
      refine ⟨(v.migrated h n xs, ⟨some h.blocks.length, v._size, n⟩), ?_,
        accounted_grow h0 h v xs n hw hsz ev hlog hcond⟩
      unfold vector.reserve
      rw [if_neg hle, hmig]
      rfl

theorem accounted_clear (h0 h : Heap T) (v : vector) (ha : v.Accounted h0 h) :
    ∃ s, (v.clear h).state? = some s ∧ vector.Accounted h0 s.1 s.2 := by
  obtain ⟨xs, ev, hw, hlog, hcond⟩ := ha
  refine ⟨(v.cleared h, { v with _size := 0 }), by rw [clear_ok h v xs hw]; rfl,
    [], ev, cleared_holds h v xs hw, by rw [cleared_log]; exact hlog, fun hnf => ?_⟩
  obtain ⟨hp, hcnt⟩ := hcond hnf
  exact ⟨by simpa [vector.owned] using hp, hcnt⟩

theorem accounted_run_all (E : ElemTraits T) (h0 : Heap T) (ms : List Mut) :
    ∀ (h : Heap T) (v : vector), (∀ m ∈ ms, m ≠ Mut.shrink_to_fit) → v.Accounted h0 h →
      ∃ s, Mut.run_all E ms h v = some s ∧ vector.Accounted h0 s.1 s.2 := by
  induction ms with
  | nil => intro h v _ ha; exact ⟨(h, v), rfl, ha⟩
  | cons m rest ih =>
    intro h v hms ha
    have hstep : ∃ s, (m.run E h v).state? = some s ∧ vector.Accounted h0 s.1 s.2 := by
      cases m with
      | reserve n => exact accounted_reserve E h0 h v n ha
      | shrink_to_fit => exact absurd rfl (hms _ (List.mem_cons_self _ _))
      | clear => exact accounted_clear h0 h v ha
    obtain ⟨s, hs, has⟩ := hstep
    obtain ⟨s2, hs2, has2⟩ := ih s.1 s.2 (fun x hx => hms x (List.mem_cons_of_mem _ hx)) has
    exact ⟨s2, by simp only [Mut.run_all, hs]; exact hs2, has2⟩

theorem accounted_dtor (h0 h : Heap T) (v : vector) (ha : v.Accounted h0 h) :
    ∃ hfin ev, v.dtor true h = some hfin ∧ hfin.log = h0.log ++ ev ∧
      (no_failed ev → paired true ev = some [] ∧ TestAllocator.counter ev = 0) := by
  obtain ⟨xs, ev, hw, hlog, hcond⟩ := ha
  obtain ⟨hfin, hd, hl⟩ := dtor_ok h v xs hw
  refine ⟨hfin, ev ++ [AllocEvent.deallocate v._data v._capacity], hd, ?_, fun hnf => ?_⟩
  · rw [hl, hlog, List.append_assoc]
  · obtain ⟨hp, hcnt⟩ := hcond (no_failed_left hnf)
    refine ⟨?_, ?_⟩
    · exact paired_release h v xs hw ev [] (by simpa using hp)
    · rw [counter_append_deallocate, hcnt]
      omega

end accounting

/-! ## The claims, continued -/

/-- Claim C11: a traversal from `rbegin()` to `rend()` (and from `crbegin()` to
`crend()`, which have the same bodies) is claimed to visit the live elements
back to front without leaving `[0, size)`.  In every container `rbegin()`
wraps `begin()` and `rend()` wraps `end()`, the wrong way round: on
`{1, 2, 3}` the first dereference is of slot `-1`, before the buffer, so the
traversal is undefined at its first step and visits nothing, while the
forward traversal visits `1, 2, 3`. -/
theorem rbegin_wraps_begin :
    (∀ v : vector, v.rbegin.current = v.begin ∧ v.rend.current = v.end_) ∧
    vec123.Holds heap123 [1, 2, 3] ∧
    vec123.for_each_forward heap123 3 = .finished [1, 2, 3] ∧
    vec123.rbegin.current.op_dec._iterator = ⟨some 0, -1⟩ ∧
    vec123.rbegin.op_deref heap123 = none ∧
    (∀ k, vec123.for_each_reverse heap123 (k + 1) = .ub []) ∧
    (∀ k, vec123.for_each_reverse heap123 k ≠ .finished [3, 2, 1]) := by
  refine ⟨fun v => ⟨rfl, ?_⟩, by decide, rfl, rfl, rfl, fun k => rfl, fun k => ?_⟩
  · simp [vector.rend, vector.end_, VectorIterator.op_add, ElemPtr.add]
  · cases k with
    | zero => decide
    | succ k =>
      have h1 : vec123.for_each_reverse heap123 (k + 1) = .ub [] := rfl
      rw [h1]
      decide

/-- Claim C12 as stated fails: it promises an array of `n` elements from
`vector(n, v)` whenever no element construction fails.  With `int` elements,
whose construction never fails, and an allocator that supplies at most `2^61`
slots, `vector<int>(2^64 - 1)` (and the same count with the value `0` given)
ends in the exception of `allocate`: no element is constructed, no block is
allocated and there is no array. -/
theorem ctor_sized_fails_with_the_allocation :
    limitedTraits.copy_throws 0 = false ∧
    vector.ctor_sized limitedTraits (Heap.empty : Heap Nat) (2 ^ 64 - 1) 0
      = .threw .bad_alloc ⟨[], [AllocEvent.allocate_failed (2 ^ 64 - 1)]⟩ ∧
    vector.ctor_sized_default limitedTraits 0 (Heap.empty : Heap Nat) (2 ^ 64 - 1)
      = .threw .bad_alloc ⟨[], [AllocEvent.allocate_failed (2 ^ 64 - 1)]⟩ ∧
    ¬ ∃ v h1, vector.ctor_sized limitedTraits (Heap.empty : Heap Nat) (2 ^ 64 - 1) 0
      = .ok v h1 := by
  have hr : vector.ctor_sized limitedTraits (Heap.empty : Heap Nat) (2 ^ 64 - 1) 0
      = .threw .bad_alloc ⟨[], [AllocEvent.allocate_failed (2 ^ 64 - 1)]⟩ := by decide
  refine ⟨rfl, hr, hr, ?_⟩
  rintro ⟨v, h1, hv⟩
  rw [hr] at hv
  exact Res.noConfusion hv

/-- Claim C12, amended: the sized constructor `vector(n, v)`, when copying `v`
does not throw.  When the allocator supplies the `n` slots it completes with
`size() == n`, `capacity() == n` and every element equal to `v` (the
container is well formed and holds `n` copies of `v`); when the allocator
fails, its exception leaves the constructor, there is no container and every
block of memory is as it was.  `vector(n)` is the same call with `v` the
default value of the element type. -/
theorem ctor_sized_fills {T : Type} (E : ElemTraits T) (h : Heap T) (n : Nat) (value : T)
    (hc : E.copy_throws value = false) :
    (E.alloc_fails h.log n = false →
      ∃ h1 v, vector.ctor_sized E h n value = .ok v h1 ∧
        vector.ctor_sized_default E value h n = .ok v h1 ∧
        v.size = n ∧ v.capacity = n ∧ v.Holds h1 (List.replicate n value) ∧
        ∀ i, i < n → (v.op_index i).deref h1 = some value) ∧
    (E.alloc_fails h.log n = true →
      ∃ h1, vector.ctor_sized E h n value = .threw .bad_alloc h1 ∧
        vector.ctor_sized_default E value h n = .threw .bad_alloc h1 ∧
        h1.blocks = h.blocks) := by
  constructor
  · intro hA
    have hw : vector.Holds
        (Heap.mk (h.blocks ++ [some (layout n (List.replicate n value))])
          (h.log ++ [AllocEvent.allocate h.blocks.length n]))
        ⟨some h.blocks.length, n, n⟩ (List.replicate n value) := by
      refine ⟨List.length_replicate n value, Nat.le_refl _, ?_⟩
      apply Heap.block?_of_blocks
      simp
    refine ⟨_, _, ctor_sized_ok E h n value hc hA, ctor_sized_ok E h n value hc hA,
      rfl, rfl, hw, ?_⟩
    intro i hi
    rw [holds_deref hw i hi, List.getElem?_replicate, if_pos hi]
  · intro hA
    exact ⟨h.refuse n, ctor_sized_refused E h n value hA, ctor_sized_refused E h n value hA,
      rfl⟩

/-- Test point for C12: `vector<int>(3)` holds `0, 0, 0`; and `vector<int>(2^62)`
with an allocator that supplies at most `2^61` slots. -/
theorem ctor_sized_fills_witness :
    (∃ h1 v, vector.ctor_sized intTraits Heap.empty 3 0 = .ok v h1 ∧
      vector.ctor_sized_default intTraits 0 Heap.empty 3 = .ok v h1 ∧
      v.size = 3 ∧ v.capacity = 3 ∧ v.Holds h1 (List.replicate 3 0) ∧
      ∀ i, i < 3 → (v.op_index i).deref h1 = some 0) ∧
    ∃ h1, vector.ctor_sized limitedTraits Heap.empty (2 ^ 62) 0 = .threw .bad_alloc h1 ∧
      vector.ctor_sized_default limitedTraits 0 Heap.empty (2 ^ 62) = .threw .bad_alloc h1 ∧
      h1.blocks = (Heap.empty : Heap Nat).blocks :=
  ⟨(ctor_sized_fills intTraits Heap.empty 3 0 rfl).1 rfl,
    (ctor_sized_fills limitedTraits Heap.empty (2 ^ 62) 0 rfl).2 (by decide)⟩

/-- Claim C13: appending (`push_back`, `emplace_back`) is claimed to give
`size() == n + 1`.  The class declares no such member, so the test calling
them does not build; and no operation the class does have makes an existing
container longer: across every constructor call, `reserve`, `shrink_to_fit`,
`clear`, move-assignment and copy-assignment, the size of a container that
existed before is at most what it was. -/
theorem no_operation_appends {T : Type} (E : ElemTraits T) (is_trivial : Bool)
    (w w1 : World T) (i : Nat) (v v1 : vector)
    (hv : w.objs[i]? = some v) (hv1 : w1.objs[i]? = some v1) :
    (∀ op, (step E w op).state? = some w1 → v1.size ≤ v.size) ∧
    (∀ this rhs, (w.op_assign_copy is_trivial this rhs).state? = some w1 →
      v1.size ≤ v.size) := by
  constructor
  · intro op hs
    exact step_size E w op w1 i v v1 hs hv hv1
  · intro this rhs hs
    have hobjs := op_assign_copy_objs is_trivial w this rhs w1 hs
    rw [hobjs, hv] at hv1
    simp at hv1
    subst hv1
    exact Nat.le_refl _

/-- Test point for C13: `reserve(1)` on an empty container leaves its size `0`. -/
theorem no_operation_appends_witness :
    step intTraits (⟨Heap.empty, [vector.ctor_default]⟩ : World Nat) (.reserve 0 1)
      = .ok () ⟨⟨[some [none]], [AllocEvent.allocate 0 1, AllocEvent.deallocate none 0]⟩,
          [⟨some 0, 0, 1⟩]⟩ ∧
    (⟨some 0, 0, 1⟩ : vector).size ≤ vector.ctor_default.size :=
  ⟨rfl, (no_operation_appends intTraits true (⟨Heap.empty, [vector.ctor_default]⟩ : World Nat)
      ⟨⟨[some [none]], [AllocEvent.allocate 0 1, AllocEvent.deallocate none 0]⟩,
        [⟨some 0, 0, 1⟩]⟩ 0 vector.ctor_default ⟨some 0, 0, 1⟩ rfl rfl).1 (.reserve 0 1) rfl⟩

/-- Claim C14: copy-assignment `a = b` is claimed to give `a` the size and the
elements of `b`.  No statement of `operator=(const vector&)` writes the fields
of `*this`.  With `b = {1, 2, 3}` reserved to `10` (object 1) and an empty `a`
(object 0), `a = b` leaves `a.size() == 0`, not `3`; and copy-constructing
from this `b`, which is what `vector(rhs)` names, is undefined.  With
`a = {9}` and `b = {1, 2, 3}`, `a` keeps `size() == 1` and its buffer pointer,
but the buffer has been released, so `a[0]` reads released memory. -/
theorem op_assign_copy_leaves_fields :
    World.op_assign_copy true (⟨heap123r, [vector.ctor_default, vec123r]⟩ : World Nat) 0 1
      = .ok () ⟨⟨heap123r.blocks,
          heap123r.log ++ [AllocEvent.deallocate none 0, AllocEvent.deallocate none 0]⟩,
          [⟨none, 0, 0⟩, vec123r]⟩ ∧
    (⟨none, 0, 0⟩ : vector).size ≠ vec123r.size ∧
    vector.ctor_copy intTraits heap123r vec123r = .ub ∧
    World.op_assign_copy true
        (⟨⟨[some [some 9], some [some 1, some 2, some 3]], []⟩,
          [⟨some 0, 1, 1⟩, ⟨some 1, 3, 3⟩]⟩ : World Nat) 0 1
      = .ok () ⟨⟨[none, some [some 1, some 2, some 3]],
          [AllocEvent.deallocate (some 0) 1, AllocEvent.deallocate none 0]⟩,
          [⟨some 0, 1, 1⟩, ⟨some 1, 3, 3⟩]⟩ ∧
    ((⟨some 0, 1, 1⟩ : vector).op_index 0).deref
        (⟨[none, some [some 1, some 2, some 3]], []⟩ : Heap Nat) = none :=
  ⟨rfl, by decide, rfl, rfl, rfl⟩

/-- Claim C15: `clear()` on a well-formed container completes with
`size() == 0`, the same `capacity()` and the same buffer pointer; the
allocator is not called, every block is allocated or released as before, and
the buffer is still an allocated block of `capacity()` raw slots. -/
theorem clear_keeps_buffer {T : Type} (h : Heap T) (v : vector) (xs : List T)
    (hw : v.Holds h xs) :
    ∃ h1 v1, v.clear h = .ok () (h1, v1) ∧
      v1.size = 0 ∧ v1.capacity = v.capacity ∧ v1._data = v._data ∧
      h1.log = h.log ∧
      (∀ b : Nat, h1.blocks[b]? = some none ↔ h.blocks[b]? = some none) ∧
      v1.Holds h1 [] := by
  refine ⟨_, _, clear_ok h v xs hw, rfl, rfl, rfl, cleared_log h v, ?_,
    cleared_holds h v xs hw⟩
  intro b
  unfold vector.cleared
  cases hd : v._data with
  | none => exact Iff.rfl
  | some c =>
    have hc := Heap.blocks_of_block? (holds_block hw hd)
    simp only [Heap.put]
    by_cases hbc : c = b
    · subst hbc
      rw [List.getElem?_set_self (Heap.lt_of_block? (holds_block hw hd)), hc]
      simp
    · rw [List.getElem?_set_ne hbc]

/-- Test point for C15: `clear()` on `{1, 2, 3}`. -/
theorem clear_keeps_buffer_witness :
    vec123.Holds heap123 [1, 2, 3] ∧
    ∃ h1 v1, vec123.clear heap123 = .ok () (h1, v1) ∧
      v1.size = 0 ∧ v1.capacity = vec123.capacity ∧ v1._data = vec123._data ∧
      h1.log = heap123.log ∧
      (∀ b : Nat, h1.blocks[b]? = some none ↔ heap123.blocks[b]? = some none) ∧
      v1.Holds h1 [] :=
  ⟨by decide, clear_keeps_buffer heap123 vec123 [1, 2, 3] (by decide)⟩

/-- Claim C16: a copy that throws during copy construction is claimed to be
rolled back as in the sized constructor.  Copying `{1, 7, 3}` with a copy
constructor that throws on `7`: the exception leaves the constructor with the
new buffer still allocated, the copy of element `0` still live in it, and no
`deallocate` call.  The sized constructor, when its value throws, releases
its buffer before the exception leaves. -/
theorem ctor_copy_leaks_on_throw :
    vector.Holds heap173 ⟨some 0, 3, 3⟩ [1, 7, 3] ∧
    vector.ctor_copy throwingTraits heap173 ⟨some 0, 3, 3⟩
      = .threw .construct_failure
          ⟨[some [some 1, some 7, some 3], some [some 1, none, none]],
            [AllocEvent.allocate 0 3, AllocEvent.allocate 1 3]⟩ ∧
    vector.ctor_sized throwingTraits heap173 2 7
      = .threw .construct_failure
          ⟨[some [some 1, some 7, some 3], none],
            [AllocEvent.allocate 0 3, AllocEvent.allocate 1 2,
              AllocEvent.deallocate (some 1) 2]⟩ :=
  ⟨by decide, rfl, rfl⟩

/-- Claim C17 as stated fails: the lifetime `{ vector<int> v; }` makes the one
allocator call `deallocate(nullptr, 0)`, which no `allocate` precedes (the
destructor releases `_data` without looking at it).  In the lifetime
`{1, 2, 3}`, `reserve(2^62)`, destruction, with an allocator that supplies at
most `2^61` slots, the request for `2^62` slots is counted and then fails, so
the counter ends at `2^62`, not `0`.  Separately, after `{1, 2, 3}`,
`reserve(10)`, `shrink_to_fit()` the destructor releases the 3-slot buffer
with the stale count `10`: that call is unpaired and the test counter ends at
`2^64 - 7`. -/
theorem default_lifetime_deallocates_null :
    lifetime intTraits true (Heap.empty : Heap Nat) .default []
      = some ⟨[], [AllocEvent.deallocate none 0]⟩ ∧
    paired false [AllocEvent.deallocate none 0] = none ∧
    lifetime limitedTraits true (Heap.empty : Heap Nat) (.list [1, 2, 3]) [.reserve (2 ^ 62)]
      = some ⟨[none],
          [AllocEvent.allocate 0 3, AllocEvent.allocate_failed (2 ^ 62),
            AllocEvent.deallocate (some 0) 3]⟩ ∧
    TestAllocator.counter
        [AllocEvent.allocate 0 3, AllocEvent.allocate_failed (2 ^ 62),
          AllocEvent.deallocate (some 0) 3] = 2 ^ 62 ∧
    lifetime intTraits true (Heap.empty : Heap Nat) (.list [1, 2, 3])
        [.reserve 10, .shrink_to_fit]
      = some ⟨[none, none, none],
          [AllocEvent.allocate 0 3, AllocEvent.allocate 1 10, AllocEvent.deallocate (some 0) 3,
            AllocEvent.allocate 2 3, AllocEvent.deallocate (some 1) 10,
            AllocEvent.deallocate (some 2) 10]⟩ ∧
    paired true
        [AllocEvent.allocate 0 3, AllocEvent.allocate 1 10, AllocEvent.deallocate (some 0) 3,
          AllocEvent.allocate 2 3, AllocEvent.deallocate (some 1) 10,
          AllocEvent.deallocate (some 2) 10] = none ∧
    TestAllocator.counter
        [AllocEvent.allocate 0 3, AllocEvent.allocate 1 10, AllocEvent.deallocate (some 0) 3,
          AllocEvent.allocate 2 3, AllocEvent.deallocate (some 1) 10,
          AllocEvent.deallocate (some 2) 10] = 2 ^ 64 - 7 :=
  ⟨rfl, rfl, by decide, by decide, rfl, by decide, by decide⟩

/-- Claim C17, amended: take a container of a trivial element type (the only
kind whose destructor can be instantiated) and a lifetime that opens with the
default, the sized or the initializer-list constructor, or with the copy
constructor from a well-formed source whose buffer is full (the allocation
succeeding and no copy throwing in any of them), goes through any sequence of
`reserve` and `clear`, and ends with the destructor.  The lifetime completes
and, when none of its `allocate` calls failed, every `deallocate(buffer, n)`
with a buffer is paired with the earlier `allocate(n)` that returned that
buffer, the only other calls are `deallocate(nullptr, 0)`, no allocation is
left outstanding, and the test counter is `0` at the end. -/
theorem lifetime_allocations_paired {T : Type} (E : ElemTraits T)
    (h0 : Heap T) (c : Ctor T) (ms : List Mut) (hc : c.admissible E h0)
    (hms : ∀ m ∈ ms, m ≠ Mut.shrink_to_fit) :
    ∃ hfin ev, lifetime E true h0 c ms = some hfin ∧ hfin.log = h0.log ++ ev ∧
      (no_failed ev → paired true ev = some [] ∧ TestAllocator.counter ev = 0) := by
  obtain ⟨v, h1, hrun, ha⟩ := accounted_ctor E h0 c hc
  obtain ⟨s, hs, has⟩ := accounted_run_all E h0 ms h1 v hms ha
  obtain ⟨hfin, ev, hd, hl, hcond⟩ := accounted_dtor h0 s.1 s.2 has
  refine ⟨hfin, ev, ?_, hl, hcond⟩
  unfold lifetime
  rw [hrun]
  simp only [hs]
  exact hd

/-- Test point for C17: `{1, 2, 3}`, `reserve(10)`, `clear()`, `reserve(4)`,
destruction, with `int` elements and an allocator that supplies every
request: the four calls of the lifetime, none of them a failed allocation. -/
theorem lifetime_allocations_paired_witness :
    lifetime intTraits true (Heap.empty : Heap Nat) (.list [1, 2, 3])
        [.reserve 10, .clear, .reserve 4]
      = some ⟨[none, none],
          [AllocEvent.allocate 0 3, AllocEvent.allocate 1 10, AllocEvent.deallocate (some 0) 3,
            AllocEvent.deallocate (some 1) 10]⟩ ∧
    no_failed [AllocEvent.allocate 0 3, AllocEvent.allocate 1 10,
      AllocEvent.deallocate (some 0) 3, AllocEvent.deallocate (some 1) 10] ∧
    paired true [AllocEvent.allocate 0 3, AllocEvent.allocate 1 10,
      AllocEvent.deallocate (some 0) 3, AllocEvent.deallocate (some 1) 10] = some [] ∧
    TestAllocator.counter [AllocEvent.allocate 0 3, AllocEvent.allocate 1 10,
      AllocEvent.deallocate (some 0) 3, AllocEvent.deallocate (some 1) 10] = 0 ∧
    ∃ hfin ev, lifetime intTraits true (Heap.empty : Heap Nat) (.list [1, 2, 3])
        [.reserve 10, .clear, .reserve 4] = some hfin ∧
      hfin.log = (Heap.empty : Heap Nat).log ++ ev ∧
      (no_failed ev → paired true ev = some [] ∧ TestAllocator.counter ev = 0) :=
  ⟨rfl, by intro n hm; simp at hm, by decide, by decide,
    lifetime_allocations_paired intTraits Heap.empty (.list [1, 2, 3])
      [.reserve 10, .clear, .reserve 4]
      (by show intTraits.alloc_fails _ _ = false ∧ ∀ x ∈ [1, 2, 3], intTraits.copy_throws x = false
          decide) (by decide)⟩

/-- Claim C19: `it -= n` is claimed to land where `it - n` does.  For every
iterator and offset `operator-=` lands where `it + n` does.  From slot `1` of
`{1, 2, 3}` with `n = 1`: `it -= 1` is at slot `2` (element `3`), `it - 1` at
slot `0` (element `1`); and `it += 1` followed by `it -= 1` ends two slots
past the start instead of back on it. -/
theorem op_sub_assign_moves_forward :
    (∀ (it : VectorIterator) (n : Int), it.op_sub_assign n = it.op_add n) ∧
    (vec123.begin.op_add 1).op_sub_assign 1 = ⟨⟨some 0, 2⟩⟩ ∧
    (vec123.begin.op_add 1).op_sub 1 = ⟨⟨some 0, 0⟩⟩ ∧
    ((vec123.begin.op_add 1).op_sub_assign 1).op_deref heap123 = some 3 ∧
    ((vec123.begin.op_add 1).op_sub 1).op_deref heap123 = some 1 ∧
    (vec123.begin.op_add_assign 1).op_sub_assign 1 = ⟨⟨some 0, 2⟩⟩ ∧
    (vec123.begin.op_add_assign 1).op_sub_assign 1 ≠ vec123.begin :=
  ⟨fun _ _ => rfl, rfl, rfl, rfl, rfl, rfl, by decide⟩

/-- Claim C20: on a well-formed container holding `xs`, with
`new_cap >= size()` and no copy throwing, `reserve_move(new_cap)` and
`reserve_copy(new_cap)` end in the same state, whatever the allocator does
with their common first call `allocate(new_cap)`; when it supplies the buffer
both complete with the same memory (the new buffer of `new_cap` slots holds
`xs` in order, the old one is released), the same `size()`, the `capacity()`
field untouched; when it does not, both end in its exception with the
container and every block as they were. -/
theorem reserve_move_eq_reserve_copy {T : Type} (E : ElemTraits T) (h : Heap T) (v : vector)
    (xs : List T) (new_cap : Nat) (hw : v.Holds h xs) (hn : v.size ≤ new_cap)
    (hc : ∀ x ∈ xs, E.copy_throws x = false) :
    vector.reserve_move E h v new_cap = vector.reserve_copy E h v new_cap ∧
    (E.alloc_fails h.log new_cap = false →
      ∃ h1 v1, vector.reserve_copy E h v new_cap = .ok () (h1, v1) ∧
        v1.size = v.size ∧ v1.capacity = v.capacity ∧
        (∃ b, v1._data = some b ∧ h1.block? b = some (layout new_cap xs)) ∧
        ∀ i, i < v.size → (v1.op_index i).deref h1 = (v.op_index i).deref h) ∧
    (E.alloc_fails h.log new_cap = true →
      ∃ h1, vector.reserve_copy E h v new_cap = .threw .bad_alloc (h1, v) ∧
        h1.blocks = h.blocks) := by
  refine ⟨?_, ?_, fun hA => ⟨_, reserve_copy_refused E h v new_cap hA, rfl⟩⟩
  · cases hA : E.alloc_fails h.log new_cap with
    | true => rw [reserve_move_refused E h v new_cap hA, reserve_copy_refused E h v new_cap hA]
    | false =>
      rw [reserve_move_ok E h v xs new_cap hw hn hA, reserve_copy_ok E h v xs new_cap hw hc hn hA]
  · intro hA
    have hcp := reserve_copy_ok E h v xs new_cap hw hc hn hA
    have hblk := migrated_block? h v xs new_cap hw
    refine ⟨_, _, hcp, rfl, rfl, ⟨_, rfl, hblk⟩, ?_⟩
    intro i hi
    simp only [vector.size] at hi hn
    have hlen := hw.1
    have hx : xs[i]? = some xs[i] := List.getElem?_eq_getElem (by omega)
    have hl : (layout new_cap xs)[i]? = some xs[i]? := layout_live (by omega) i (by omega)
    rw [hx] at hl
    rw [holds_deref hw i hi, hx]
    simp only [vector.op_index, Ref.deref]
    exact Heap.read_of_block hblk hl

/-- Test point for C20: `{1, 2, 3}` with capacity `10` migrated into `3` slots. -/
theorem reserve_move_eq_reserve_copy_witness :
    vec123r.Holds heap123r [1, 2, 3] ∧
    vector.reserve_move throwingTraits heap123r vec123r 3
      = vector.reserve_copy throwingTraits heap123r vec123r 3 ∧
    ∃ h1 v1, vector.reserve_copy throwingTraits heap123r vec123r 3 = .ok () (h1, v1) ∧
      v1.size = vec123r.size ∧ v1.capacity = vec123r.capacity ∧
      (∃ b, v1._data = some b ∧ h1.block? b = some (layout 3 [1, 2, 3])) ∧
      ∀ i, i < vec123r.size → (v1.op_index i).deref h1 = (vec123r.op_index i).deref heap123r :=
  ⟨by decide,
    (reserve_move_eq_reserve_copy throwingTraits heap123r vec123r [1, 2, 3] 3 (by decide)
      (by decide) (by decide)).1,
    (reserve_move_eq_reserve_copy throwingTraits heap123r vec123r [1, 2, 3] 3 (by decide)
      (by decide) (by decide)).2.1 rfl⟩

end containers
